import Mathlib

set_option maxRecDepth 100000
set_option allowUnsafeReducibility true
attribute [local semireducible] Rat.add Rat.mul Rat.sub Rat.div Rat.inv Rat.neg Rat.blt

/-!
Verification development for the VAV Alien4 audio engine
(src/related_projects/VAV_AudioEngine): a live-loop slicer with polyphonic
playback and an EQ / delay / reverb effect chain.

The C++ sources are shallowly embedded:
* IEEE-style `float` values are modelled by `F`: an exact rational for the
  finite case plus the three non-finite cases (`+inf`, `-inf`, `nan`).
  Arithmetic on finite values is exact rational arithmetic (no rounding);
  the non-finite propagation rules and the comparison semantics
  (every comparison with `nan` is false) follow IEEE-754, which is what the
  boundedness and defensive-guard claims depend on.
* Transcendental library calls (`std::tanh`, `std::sqrt`, `std::sin`,
  `std::cos`, `std::pow`) are abstracted into a `DspOps` record that is an
  explicit parameter of every embedded function that needs one; theorems
  quantify over the record (or constrain the few values they need, e.g.
  `pow 10 0 = 1`).
* Stateful C++ classes become Lean structures with explicit state passing;
  `std::vector` audio buffers become total functions `Nat -> F` together
  with the integer write cursors the source keeps.
* The random engine (`std::default_random_engine`) is modelled by an
  explicit stream of draws threaded through the state;
  `uniform_int_distribution(0, n-1)` consumes one integer draw and reduces
  it modulo `n`, so its result is always in `[0, n-1]` like the original.
-/

/-- Model of a C++ `float` value: an exact rational in the finite case,
or one of the three non-finite values. -/
inductive F where
  | finite : ℚ → F
  | pinf : F
  | ninf : F
  | nan : F
deriving DecidableEq

namespace F

instance : OfNat F n where
  ofNat := F.finite n

instance : Inhabited F where
  default := F.finite 0

/-- `isfinite`. -/
def isFinite : F → Bool
  | finite _ => true
  | _ => false

/-- IEEE `<`: comparisons involving `nan` are false. -/
def lt : F → F → Bool
  | finite a, finite b => decide (a < b)
  | finite _, pinf => true
  | pinf, _ => false
  | finite _, ninf => false
  | ninf, ninf => false
  | ninf, finite _ => true
  | ninf, pinf => true
  | nan, _ => false
  | _, nan => false

/-- IEEE `<=`: comparisons involving `nan` are false. -/
def le : F → F → Bool
  | finite a, finite b => decide (a ≤ b)
  | finite _, pinf => true
  | pinf, pinf => true
  | pinf, _ => false
  | finite _, ninf => false
  | ninf, _ => true
  | nan, _ => false
  | _, nan => false

/-- IEEE negation. -/
def neg : F → F
  | finite a => finite (-a)
  | pinf => ninf
  | ninf => pinf
  | nan => nan

/-- IEEE addition (exact on finite values). -/
def add : F → F → F
  | finite a, finite b => finite (a + b)
  | finite _, pinf => pinf
  | finite _, ninf => ninf
  | pinf, finite _ => pinf
  | pinf, pinf => pinf
  | pinf, ninf => nan
  | ninf, finite _ => ninf
  | ninf, ninf => ninf
  | ninf, pinf => nan
  | nan, _ => nan
  | _, nan => nan

/-- IEEE subtraction. -/
def sub (a b : F) : F := add a (neg b)

/-- IEEE multiplication (exact on finite values; `0 * inf = nan`). -/
def mul : F → F → F
  | finite a, finite b => finite (a * b)
  | finite a, pinf => if a = 0 then nan else if 0 < a then pinf else ninf
  | finite a, ninf => if a = 0 then nan else if 0 < a then ninf else pinf
  | pinf, finite b => if b = 0 then nan else if 0 < b then pinf else ninf
  | ninf, finite b => if b = 0 then nan else if 0 < b then ninf else pinf
  | pinf, pinf => pinf
  | pinf, ninf => ninf
  | ninf, pinf => ninf
  | ninf, ninf => pinf
  | nan, _ => nan
  | _, nan => nan

/-- IEEE division (exact on finite values; `x/0` gives a signed infinity,
`0/0` and `inf/inf` give `nan`).  The negative-zero distinction is not
modelled. -/
def div : F → F → F
  | finite a, finite b =>
      if b = 0 then (if a = 0 then nan else if 0 < a then pinf else ninf)
      else finite (a / b)
  | finite _, pinf => finite 0
  | finite _, ninf => finite 0
  | pinf, finite b => if 0 ≤ b then pinf else ninf
  | ninf, finite b => if 0 ≤ b then ninf else pinf
  | pinf, pinf => nan
  | pinf, ninf => nan
  | ninf, pinf => nan
  | ninf, ninf => nan
  | nan, _ => nan
  | _, nan => nan

/-- `std::abs`. -/
def fabs : F → F
  | finite a => finite |a|
  | pinf => pinf
  | ninf => pinf
  | nan => nan

/-- `std::min(a, b)` as defined by the C++ standard: `b < a ? b : a`. -/
def cppMin (a b : F) : F := if lt b a then b else a

/-- `std::max(a, b)` as defined by the C++ standard: `a < b ? b : a`. -/
def cppMax (a b : F) : F := if lt a b then b else a

/-- The engine's clamp helper `std::max(lo, std::min(v, hi))`. -/
def clamp (v lo hi : F) : F := cppMax lo (cppMin v hi)

/-- Truncation toward zero, the semantics of a C++ `(int)` cast from a
finite `float`.  The cast is undefined behaviour on non-finite values;
the model returns `0` there. -/
def toInt : F → ℤ
  | finite a => if 0 ≤ a then ⌊a⌋ else -⌊-a⌋
  | _ => 0

/-- `std::round`, half away from zero, truncated to an integer as the
engine does with `(int)std::round(..)`.  Undefined behaviour on
non-finite values is modelled as `0`. -/
def roundInt : F → ℤ
  | finite a => if 0 ≤ a then ⌊a + 1/2⌋ else -⌊-a + 1/2⌋
  | _ => 0

/-- Integer-to-float conversion (exact: every `int` fits in our model). -/
def ofInt (n : ℤ) : F := finite n

end F

/-- The transcendental C library functions used by the engine, kept
abstract: theorems either hold for every interpretation or constrain the
few values they need. -/
structure DspOps where
  tanh : F → F
  sqrt : F → F
  sin : F → F
  cos : F → F
  pow : F → F → F

/-- Slice structure (alien4_engine.hpp). -/
structure Slice where
  startSample : ℤ := 0
  endSample : ℤ := 0
  peakAmplitude : F := F.finite 0
  active : Bool := false
deriving DecidableEq

instance : Inhabited Slice where
  default := {}

/-- Voice structure for polyphonic playback (alien4_engine.hpp). -/
structure Voice where
  sliceIndex : ℤ := 0
  playbackPosition : ℤ := 0
  playbackPhase : F := F.finite 0
  speedMultiplier : F := F.finite 1
deriving DecidableEq

instance : Inhabited Voice where
  default := {}

/-!
## Slice detection

`rescanSlices` (batch) and the recording branch of `process` (incremental)
run the same loop body over `(slices, lastAmp)`; the only textual
difference is the guard of the close-previous-slice branch:
the batch scan tests `back.active` while the incremental scan tests
`back.active && back.endSample == 0`.  The shared body is
`sliceScanStep requireOpen`, with `requireOpen := false` for the batch
scan and `true` for the incremental one.

The slice vector is represented most-recent-first (`head` is the C++
`back()`); `detectSlices` reverses it at the end, so its result is in the
vector's natural ascending order.
-/

/-- The close-or-drop-previous-slice branch of the scan body at a rising
threshold crossing. -/
def closeBack (requireOpen : Bool) (minSliceSamples pos : ℤ)
    (stack : List Slice) : List Slice :=
  match stack with
  | [] => []
  | back :: rest =>
    if back.active && (!requireOpen || back.endSample == 0) then
      if minSliceSamples ≤ pos - back.startSample then
        { back with endSample := pos - 1 } :: rest
      else rest
    else back :: rest

/-- The open-a-new-slice branch of the scan body at a rising threshold
crossing (`slices.empty() || slices.back().endSample > 0`). -/
def pushNew (pos : ℤ) (stack : List Slice) : List Slice :=
  match stack with
  | [] => [{ startSample := pos, endSample := 0,
             peakAmplitude := F.finite 0, active := true }]
  | back :: rest =>
    if 0 < back.endSample then
      { startSample := pos, endSample := 0,
        peakAmplitude := F.finite 0, active := true } :: back :: rest
    else back :: rest

/-- The running-peak update of the open slice. -/
def peakUpd (currentAmp : F) (stack : List Slice) : List Slice :=
  match stack with
  | [] => []
  | back :: rest =>
    if back.active && back.endSample == 0 then
      { back with peakAmplitude := F.cppMax back.peakAmplitude currentAmp } :: rest
    else back :: rest

/-- One iteration of the threshold scan at position `pos` over sample
value `x`, acting on the reversed slice list (head = C++ `back()`)
paired with `lastAmp`. -/
def sliceScanStep (requireOpen : Bool) (threshold : F) (minSliceSamples : ℤ)
    (pos : ℤ) (x : F) (st : List Slice × F) : List Slice × F :=
  let stack := st.1
  let lastAmp := st.2
  let currentAmp := F.fabs x
  let stack :=
    if F.lt lastAmp threshold && F.le threshold currentAmp then
      pushNew pos (closeBack requireOpen minSliceSamples pos stack)
    else stack
  (peakUpd currentAmp stack, currentAmp)

/-- End-of-buffer finalization: close the still-open last slice when it is
long enough, otherwise drop it (shared by `rescanSlices` and the
stop-recording commit). -/
def finalizeSlices (minSliceSamples recordedLength : ℤ)
    (stack : List Slice) : List Slice :=
  match stack with
  | [] => []
  | back :: rest =>
    if back.active && back.endSample == 0 then
      if minSliceSamples ≤ recordedLength - back.startSample then
        { back with endSample := recordedLength - 1 } :: rest
      else rest
    else back :: rest

/-- Run the batch scan of `rescanSlices` over the valid prefix of the
buffer, producing the slice list in ascending order. -/
def detectSlices (samples : List F) (threshold : F) (minSliceSamples : ℤ) :
    List Slice :=
  let scanned := samples.enum.foldl
    (fun st p => sliceScanStep false threshold minSliceSamples (p.1 : ℤ) p.2 st)
    ([], F.finite 0)
  (finalizeSlices minSliceSamples (samples.length : ℤ) scanned.1).reverse

/-!
## Three-band EQ (three_band_eq.hpp)
-/

/-- `M_PI` as the C double constant (an exact rational literal). -/
def mPi : F := F.finite (3141592653589793 / 1000000000000000)

/-- The normalized angular frequency `w0 = 2*M_PI*freq/sampleRate` used by
all three coefficient calculators. -/
def biquadW0 (sampleRate freq : F) : F :=
  F.div (F.mul (F.mul (F.finite 2) mPi) freq) sampleRate

/-- Biquad coefficients for one band. -/
structure BiquadCoeffs where
  b0 : F := F.finite 0
  b1 : F := F.finite 0
  b2 : F := F.finite 0
  a1 : F := F.finite 0
  a2 : F := F.finite 0
deriving DecidableEq

/-- Per-band biquad state, left and right channels. -/
structure BiquadState where
  x1 : F := F.finite 0
  x2 : F := F.finite 0
  y1 : F := F.finite 0
  y2 : F := F.finite 0
  x1r : F := F.finite 0
  x2r : F := F.finite 0
  y1r : F := F.finite 0
  y2r : F := F.finite 0
deriving DecidableEq

/-- `ThreeBandEQ::calculateLowShelf`. -/
def calculateLowShelf (ops : DspOps) (sampleRate freq gain : F) : BiquadCoeffs :=
  let w0 := biquadW0 sampleRate freq
  let A := ops.pow (F.finite 10) (F.div gain (F.finite 40))
  let S := F.finite 1
  let alpha := F.mul (F.div (ops.sin w0) (F.finite 2))
    (ops.sqrt (F.add (F.mul (F.add A (F.div (F.finite 1) A))
      (F.sub (F.div (F.finite 1) S) (F.finite 1))) (F.finite 2)))
  let cosw0 := ops.cos w0
  let sqrtA := ops.sqrt A
  let b0 := F.mul A (F.add (F.sub (F.add A (F.finite 1))
    (F.mul (F.sub A (F.finite 1)) cosw0)) (F.mul (F.mul (F.finite 2) sqrtA) alpha))
  let b1 := F.mul (F.mul (F.finite 2) A)
    (F.sub (F.sub A (F.finite 1)) (F.mul (F.add A (F.finite 1)) cosw0))
  let b2 := F.mul A (F.sub (F.sub (F.add A (F.finite 1))
    (F.mul (F.sub A (F.finite 1)) cosw0)) (F.mul (F.mul (F.finite 2) sqrtA) alpha))
  let a0 := F.add (F.add (F.add A (F.finite 1))
    (F.mul (F.sub A (F.finite 1)) cosw0)) (F.mul (F.mul (F.finite 2) sqrtA) alpha)
  let a1 := F.div (F.mul (F.finite (-2))
    (F.add (F.sub A (F.finite 1)) (F.mul (F.add A (F.finite 1)) cosw0))) a0
  let a2 := F.div (F.sub (F.add (F.add A (F.finite 1))
    (F.mul (F.sub A (F.finite 1)) cosw0)) (F.mul (F.mul (F.finite 2) sqrtA) alpha)) a0
  { b0 := F.div b0 a0, b1 := F.div b1 a0, b2 := F.div b2 a0, a1 := a1, a2 := a2 }

/-- `ThreeBandEQ::calculatePeaking`. -/
def calculatePeaking (ops : DspOps) (sampleRate freq gain q : F) : BiquadCoeffs :=
  let w0 := biquadW0 sampleRate freq
  let A := ops.pow (F.finite 10) (F.div gain (F.finite 40))
  let alpha := F.div (ops.sin w0) (F.mul (F.finite 2) q)
  let cosw0 := ops.cos w0
  let b0 := F.add (F.finite 1) (F.mul alpha A)
  let b1 := F.mul (F.finite (-2)) cosw0
  let b2 := F.sub (F.finite 1) (F.mul alpha A)
  let a0 := F.add (F.finite 1) (F.div alpha A)
  let a1 := F.div (F.mul (F.finite (-2)) cosw0) a0
  let a2 := F.div (F.sub (F.finite 1) (F.div alpha A)) a0
  { b0 := F.div b0 a0, b1 := F.div b1 a0, b2 := F.div b2 a0, a1 := a1, a2 := a2 }

/-- `ThreeBandEQ::calculateHighShelf`. -/
def calculateHighShelf (ops : DspOps) (sampleRate freq gain : F) : BiquadCoeffs :=
  let w0 := biquadW0 sampleRate freq
  let A := ops.pow (F.finite 10) (F.div gain (F.finite 40))
  let S := F.finite 1
  let alpha := F.mul (F.div (ops.sin w0) (F.finite 2))
    (ops.sqrt (F.add (F.mul (F.add A (F.div (F.finite 1) A))
      (F.sub (F.div (F.finite 1) S) (F.finite 1))) (F.finite 2)))
  let cosw0 := ops.cos w0
  let sqrtA := ops.sqrt A
  let b0 := F.mul A (F.add (F.add (F.add A (F.finite 1))
    (F.mul (F.sub A (F.finite 1)) cosw0)) (F.mul (F.mul (F.finite 2) sqrtA) alpha))
  let b1 := F.mul (F.mul (F.finite (-2)) A)
    (F.add (F.sub A (F.finite 1)) (F.mul (F.add A (F.finite 1)) cosw0))
  let b2 := F.mul A (F.sub (F.add (F.add A (F.finite 1))
    (F.mul (F.sub A (F.finite 1)) cosw0)) (F.mul (F.mul (F.finite 2) sqrtA) alpha))
  let a0 := F.add (F.sub (F.add A (F.finite 1))
    (F.mul (F.sub A (F.finite 1)) cosw0)) (F.mul (F.mul (F.finite 2) sqrtA) alpha)
  let a1 := F.div (F.mul (F.finite 2)
    (F.sub (F.sub A (F.finite 1)) (F.mul (F.add A (F.finite 1)) cosw0))) a0
  let a2 := F.div (F.sub (F.sub (F.add A (F.finite 1))
    (F.mul (F.sub A (F.finite 1)) cosw0)) (F.mul (F.mul (F.finite 2) sqrtA) alpha)) a0
  { b0 := F.div b0 a0, b1 := F.div b1 a0, b2 := F.div b2 a0, a1 := a1, a2 := a2 }

/-- `ThreeBandEQ::processBiquad`, returning the output together with the
updated state. -/
def processBiquad (coeffs : BiquadCoeffs) (state : BiquadState)
    (rightChannel : Bool) (input : F) : F × BiquadState :=
  let x1 := if rightChannel then state.x1r else state.x1
  let x2 := if rightChannel then state.x2r else state.x2
  let y1 := if rightChannel then state.y1r else state.y1
  let y2 := if rightChannel then state.y2r else state.y2
  let output := F.sub (F.sub (F.add (F.add (F.mul coeffs.b0 input)
    (F.mul coeffs.b1 x1)) (F.mul coeffs.b2 x2)) (F.mul coeffs.a1 y1))
    (F.mul coeffs.a2 y2)
  let state' :=
    if rightChannel then
      { state with x2r := x1, x1r := input, y2r := y1, y1r := output }
    else
      { state with x2 := x1, x1 := input, y2 := y1, y1 := output }
  (output, state')

/-- `ThreeBandEQ` object state. -/
structure ThreeBandEQ where
  sampleRate : F
  lowShelf : BiquadCoeffs
  midPeak : BiquadCoeffs
  highShelf : BiquadCoeffs
  lowState : BiquadState := {}
  midState : BiquadState := {}
  highState : BiquadState := {}
  lowGain : F := F.finite 0
  midGain : F := F.finite 0
  highGain : F := F.finite 0

/-- `ThreeBandEQ` constructor (default frequencies 250 Hz / 1 kHz / 4 kHz,
all gains 0 dB, zero filter state). -/
def eqInit (ops : DspOps) (sr : F) : ThreeBandEQ :=
  { sampleRate := sr
    lowShelf := calculateLowShelf ops sr (F.finite 250) (F.finite 0)
    midPeak := calculatePeaking ops sr (F.finite 1000) (F.finite 0) (F.finite 1)
    highShelf := calculateHighShelf ops sr (F.finite 4000) (F.finite 0) }

/-- `ThreeBandEQ::setLowGain`. -/
def eqSetLowGain (ops : DspOps) (eq : ThreeBandEQ) (gain : F) : ThreeBandEQ :=
  let g := F.cppMax (F.finite (-20)) (F.cppMin (F.finite 20) gain)
  { eq with lowGain := g,
            lowShelf := calculateLowShelf ops eq.sampleRate (F.finite 250) g }

/-- `ThreeBandEQ::setMidGain`. -/
def eqSetMidGain (ops : DspOps) (eq : ThreeBandEQ) (gain : F) : ThreeBandEQ :=
  let g := F.cppMax (F.finite (-20)) (F.cppMin (F.finite 20) gain)
  { eq with midGain := g,
            midPeak := calculatePeaking ops eq.sampleRate (F.finite 1000) g (F.finite 1) }

/-- `ThreeBandEQ::setHighGain`. -/
def eqSetHighGain (ops : DspOps) (eq : ThreeBandEQ) (gain : F) : ThreeBandEQ :=
  let g := F.cppMax (F.finite (-20)) (F.cppMin (F.finite 20) gain)
  { eq with highGain := g,
            highShelf := calculateHighShelf ops eq.sampleRate (F.finite 4000) g }

/-- `ThreeBandEQ::process` for one stereo sample. -/
def eqProcessOne (eq : ThreeBandEQ) (inL inR : F) : ThreeBandEQ × F × F :=
  let r1 := processBiquad eq.lowShelf eq.lowState false inL
  let r2 := processBiquad eq.midPeak eq.midState false r1.1
  let r3 := processBiquad eq.highShelf eq.highState false r2.1
  let r4 := processBiquad eq.lowShelf r1.2 true inR
  let r5 := processBiquad eq.midPeak r2.2 true r4.1
  let r6 := processBiquad eq.highShelf r3.2 true r5.1
  ({ eq with lowState := r4.2, midState := r5.2, highState := r6.2 }, r3.1, r6.1)

/-- `ThreeBandEQ::clear`. -/
def eqClear (eq : ThreeBandEQ) : ThreeBandEQ :=
  { eq with lowState := {}, midState := {}, highState := {} }

/-!
## Stereo delay (ripley/stereo_delay.hpp)
-/

/-- Pointwise update of a buffer modelled as a total function; writes at a
negative index (impossible in the source) are dropped. -/
def updBuf (b : ℕ → F) (i : ℤ) (v : F) : ℕ → F :=
  fun j => if (j : ℤ) = i then v else b j

/-- `StereoDelay` object state. -/
structure StereoDelay where
  sampleRate : F
  maxDelay : F
  bufferSize : ℤ
  leftBuffer : ℕ → F
  rightBuffer : ℕ → F
  writeIndex : ℤ := 0
  delayTimeL : F := F.finite (1/4)
  delayTimeR : F := F.finite (1/4)
  feedback : F := F.finite (3/10)

/-- `StereoDelay` constructor (`maxDelay = 2.0` seconds). -/
def delayInit (sr : F) : StereoDelay :=
  { sampleRate := sr
    maxDelay := F.finite 2
    bufferSize := F.toInt (F.mul (F.finite 2) sr)
    leftBuffer := fun _ => F.finite 0
    rightBuffer := fun _ => F.finite 0 }

/-- `StereoDelay::setDelayTime`. -/
def delaySetDelayTime (d : StereoDelay) (left right : F) : StereoDelay :=
  { d with delayTimeL := F.cppMax (F.finite (1/1000)) (F.cppMin d.maxDelay left),
           delayTimeR := F.cppMax (F.finite (1/1000)) (F.cppMin d.maxDelay right) }

/-- `StereoDelay::setFeedback`. -/
def delaySetFeedback (d : StereoDelay) (fb : F) : StereoDelay :=
  { d with feedback := F.cppMax (F.finite 0) (F.cppMin (F.finite (19/20)) fb) }

/-- `StereoDelay::process` for one stereo sample (the engine always calls
it with `numSamples = 1`, so the per-call delay-time computation happens
every sample). -/
def delayProcessOne (d : StereoDelay) (inL inR : F) : StereoDelay × F × F :=
  let delaySamplesL := max 1 (min (d.bufferSize - 1) (F.toInt (F.mul d.delayTimeL d.sampleRate)))
  let delaySamplesR := max 1 (min (d.bufferSize - 1) (F.toInt (F.mul d.delayTimeR d.sampleRate)))
  let readIndexL := (d.writeIndex - delaySamplesL + d.bufferSize) % d.bufferSize
  let readIndexR := (d.writeIndex - delaySamplesR + d.bufferSize) % d.bufferSize
  let leftDelayed := d.leftBuffer readIndexL.toNat
  let rightDelayed := d.rightBuffer readIndexR.toNat
  let d := { d with
    leftBuffer := updBuf d.leftBuffer d.writeIndex (F.add inL (F.mul leftDelayed d.feedback))
    rightBuffer := updBuf d.rightBuffer d.writeIndex (F.add inR (F.mul rightDelayed d.feedback))
    writeIndex := (d.writeIndex + 1) % d.bufferSize }
  (d, leftDelayed, rightDelayed)

/-- `StereoDelay::clear`. -/
def delayClear (d : StereoDelay) : StereoDelay :=
  { d with leftBuffer := fun _ => F.finite 0,
           rightBuffer := fun _ => F.finite 0,
           writeIndex := 0 }

/-!
## Freeverb-style reverb (ripley/reverb_processor.hpp)
-/

/-- `ReverbProcessor::COMB_SIZES` (entries 0-3 feed the left channel,
4-7 the right). -/
def combSizes : Fin 8 → ℤ
  | 0 => 1557 | 1 => 1617 | 2 => 1491 | 3 => 1422
  | 4 => 1277 | 5 => 1356 | 6 => 1188 | 7 => 1116

/-- `ReverbProcessor::ALLPASS_SIZES`. -/
def allpassSizes : Fin 4 → ℤ
  | 0 => 556 | 1 => 441 | 2 => 341 | 3 => 225

/-- `ReverbProcessor` object state.  The four allpass buffers are shared
by both channels, exactly as in the source. -/
structure ReverbProcessor where
  sampleRate : F
  combBufL : Fin 4 → ℕ → F
  combBufR : Fin 4 → ℕ → F
  combIdxL : Fin 4 → ℤ
  combIdxR : Fin 4 → ℤ
  combLpL : Fin 4 → F
  combLpR : Fin 4 → F
  apBuf : Fin 4 → ℕ → F
  apIdx : Fin 4 → ℤ
  hpStateL : F := F.finite 0
  hpStateR : F := F.finite 0
  roomSize : F := F.finite (1/2)
  damping : F := F.finite (2/5)
  decay : F := F.finite (3/5)

/-- `ReverbProcessor` constructor. -/
def reverbInit (sr : F) : ReverbProcessor :=
  { sampleRate := sr
    combBufL := fun _ _ => F.finite 0
    combBufR := fun _ _ => F.finite 0
    combIdxL := fun _ => 0
    combIdxR := fun _ => 0
    combLpL := fun _ => F.finite 0
    combLpR := fun _ => F.finite 0
    apBuf := fun _ _ => F.finite 0
    apIdx := fun _ => 0 }

/-- `ReverbProcessor::setParameters` (each argument is clamped into
`[0,1]`; the `-1` sentinels the engine passes therefore clamp to `0`). -/
def reverbSetParameters (rv : ReverbProcessor) (room damp dec : F) : ReverbProcessor :=
  { rv with roomSize := F.cppMax (F.finite 0) (F.cppMin (F.finite 1) room),
            damping := F.cppMax (F.finite 0) (F.cppMin (F.finite 1) damp),
            decay := F.cppMax (F.finite 0) (F.cppMin (F.finite 1) dec) }

/-- `ReverbProcessor::processCombFilter`, returning
`(buffer, index, lpState, output)`. -/
def processCombFilter (size : ℤ) (buffer : ℕ → F) (index : ℤ) (lpState : F)
    (input feedback dampingCoeff : F) : (ℕ → F) × ℤ × F × F :=
  let output := buffer index.toNat
  let lpState := F.add lpState (F.mul (F.sub output lpState) dampingCoeff)
  let buffer := updBuf buffer index (F.add input (F.mul lpState feedback))
  let index := (index + 1) % size
  (buffer, index, lpState, output)

/-- `ReverbProcessor::processAllpassFilter` (gain 0.5), returning
`(buffer, index, output)`. -/
def processAllpassFilter (size : ℤ) (buffer : ℕ → F) (index : ℤ)
    (input : F) : (ℕ → F) × ℤ × F :=
  let gain := F.finite (1/2)
  let delayed := buffer index.toNat
  let output := F.add (F.mul (F.neg input) gain) delayed
  let buffer := updBuf buffer index (F.add input (F.mul delayed gain))
  let index := (index + 1) % size
  (buffer, index, output)

/-- The four parallel comb filters of one channel, accumulated in order
`j = 0..3` (`sizeAt j` selects that channel's `COMB_SIZES` entry). -/
def combLoop (sizeAt : Fin 4 → ℤ) (bufs : Fin 4 → ℕ → F) (idxs : Fin 4 → ℤ)
    (lps : Fin 4 → F) (input feedback dampingCoeff : F) :
    (Fin 4 → ℕ → F) × (Fin 4 → ℤ) × (Fin 4 → F) × F :=
  (List.finRange 4).foldl
    (fun acc j =>
      let r := processCombFilter (sizeAt j) (acc.1 j) (acc.2.1 j) (acc.2.2.1 j)
        input feedback dampingCoeff
      (Function.update acc.1 j r.1, Function.update acc.2.1 j r.2.1,
       Function.update acc.2.2.1 j r.2.2.1, F.add acc.2.2.2 r.2.2.2))
    (bufs, idxs, lps, F.finite 0)

/-- The serial allpass diffusion of the source: for each `j = 0..3` the
left sample and then the right sample pass through the same (shared)
allpass buffer `j`. -/
def allpassLoop (bufs : Fin 4 → ℕ → F) (idxs : Fin 4 → ℤ) (dL dR : F) :
    (Fin 4 → ℕ → F) × (Fin 4 → ℤ) × F × F :=
  (List.finRange 4).foldl
    (fun acc j =>
      let rL := processAllpassFilter (allpassSizes j) (acc.1 j) (acc.2.1 j) acc.2.2.1
      let rR := processAllpassFilter (allpassSizes j) rL.1 rL.2.1 acc.2.2.2
      (Function.update acc.1 j rR.1, Function.update acc.2.1 j rR.2.1,
       rL.2.2, rR.2.2))
    (bufs, idxs, dL, dR)

/-- `ReverbProcessor::process` for one stereo sample. -/
def reverbProcessOne (rv : ReverbProcessor) (inL inR : F) :
    ReverbProcessor × F × F :=
  let feedback := F.add (F.finite (1/2)) (F.mul rv.decay (F.finite (97/200)))
  let feedback := F.cppMax (F.finite 0) (F.cppMin (F.finite (199/200)) feedback)
  let dampingCoeff := F.add (F.finite (1/20)) (F.mul rv.damping (F.finite (9/10)))
  let roomScale := F.add (F.finite (3/10)) (F.mul rv.roomSize (F.finite (7/5)))
  let inputL := F.mul inL roomScale
  let inputR := F.mul inR roomScale
  let cL := combLoop (fun j => combSizes ⟨j.val, by omega⟩) rv.combBufL rv.combIdxL
    rv.combLpL inputL feedback dampingCoeff
  let cR := combLoop (fun j => combSizes ⟨j.val + 4, by omega⟩) rv.combBufR rv.combIdxR
    rv.combLpR inputR feedback dampingCoeff
  let combOutL := F.mul cL.2.2.2 (F.finite (1/4))
  let combOutR := F.mul cR.2.2.2 (F.finite (1/4))
  let ap := allpassLoop rv.apBuf rv.apIdx combOutL combOutR
  let diffusedL := ap.2.2.1
  let diffusedR := ap.2.2.2
  let hpCutoff := F.div (F.finite 100) (F.mul rv.sampleRate (F.finite (1/2)))
  let hpCutoff := F.cppMax (F.finite (1/1000)) (F.cppMin (F.finite (1/10)) hpCutoff)
  let hpStateL := F.add rv.hpStateL (F.mul (F.sub diffusedL rv.hpStateL) hpCutoff)
  let hpStateR := F.add rv.hpStateR (F.mul (F.sub diffusedR rv.hpStateR) hpCutoff)
  let outL := F.sub diffusedL hpStateL
  let outR := F.sub diffusedR hpStateR
  ({ rv with combBufL := cL.1, combIdxL := cL.2.1, combLpL := cL.2.2.1,
             combBufR := cR.1, combIdxR := cR.2.1, combLpR := cR.2.2.1,
             apBuf := ap.1, apIdx := ap.2.1,
             hpStateL := hpStateL, hpStateR := hpStateR }, outL, outR)

/-- `ReverbProcessor::clear`. -/
def reverbClear (rv : ReverbProcessor) : ReverbProcessor :=
  { rv with combBufL := fun _ _ => F.finite 0,
            combBufR := fun _ _ => F.finite 0,
            combIdxL := fun _ => 0, combIdxR := fun _ => 0,
            combLpL := fun _ => F.finite 0, combLpR := fun _ => F.finite 0,
            apBuf := fun _ _ => F.finite 0, apIdx := fun _ => 0,
            hpStateL := F.finite 0, hpStateR := F.finite 0 }

/-!
## Alien4 engine (alien4_engine.hpp)
-/

/-- `LOOP_BUFFER_SIZE` (60 seconds at 48 kHz). -/
def LOOP_BUFFER_SIZE : ℤ := 2880000

/-- Explicit model of `std::default_random_engine`: streams of draws for
the integer and real uniform distributions. -/
structure Rng where
  ints : List ℕ
  rats : List ℚ
deriving DecidableEq

/-- `std::uniform_int_distribution<int>(lo, hi)` applied to the engine:
consumes one draw and maps it into `[lo, hi]`. -/
def intDraw (lo hi : ℤ) (rng : Rng) : ℤ × Rng :=
  (lo + (rng.ints.headD 0 : ℤ) % (hi - lo + 1), { rng with ints := rng.ints.tail })

/-- `std::uniform_real_distribution<float>(lo, hi)`: consumes one draw
`u ∈ [0,1]` and maps it affinely into `[lo, hi]`. -/
def realDraw (lo hi : F) (rng : Rng) : F × Rng :=
  (F.add lo (F.mul (F.sub hi lo) (F.finite (rng.rats.headD 0))),
   { rng with rats := rng.rats.tail })

/-- `Alien4AudioEngine` object state.  `tempSlicesRev` is the C++
`tempSlices` vector stored most-recent-first (head = `back()`); the
committed `slices` list is stored in the vector's natural ascending
order. -/
structure AlienState where
  sampleRate : F
  loopBuffer : ℕ → F
  playbackPosition : ℤ := 0
  playbackPhase : F := F.finite 0
  recordedLength : ℤ := 0
  lastScanTargetIndex : ℤ := -1
  tempBuffer : ℕ → F
  tempSlicesRev : List Slice := []
  tempRecordPosition : ℤ := 0
  tempRecordedLength : ℤ := 0
  tempLastAmplitude : F := F.finite 0
  slices : List Slice := []
  currentSliceIndex : ℤ := 0
  lastAmplitude : F := F.finite 0
  lastMinSliceTime : F := F.finite (1/20)
  voices : List Voice := []
  numVoices : ℤ := 1
  rng : Rng
  lastScanValue : F := F.finite (-1)
  isRecording : Bool := false
  looping : Bool := true
  minSliceTime : F := F.finite (1/20)
  scanValue : F := F.finite 0
  feedbackAmount : F := F.finite 0
  mixAmount : F := F.finite (1/2)
  speed : F := F.finite 1
  lastOutputL : F := F.finite 0
  lastOutputR : F := F.finite 0
  eq : ThreeBandEQ
  delay : StereoDelay
  reverb : ReverbProcessor
  delayWet : F := F.finite 0
  reverbWet : F := F.finite 0

/-- `Alien4AudioEngine` constructor at sample rate `sr`, with the random
engine's seed modelled by the explicit draw streams. -/
def engineInit (ops : DspOps) (sr : F) (rng : Rng) : AlienState :=
  { sampleRate := sr
    loopBuffer := fun _ => F.finite 0
    tempBuffer := fun _ => F.finite 0
    rng := rng
    eq := eqInit ops sr
    delay := delayInit sr
    reverb := reverbInit sr }

/-- `Alien4AudioEngine::getMinSliceTime`: two-segment knob curve mapping
`[0,1]` to `0.001..5` seconds. -/
def getMinSliceTime (ops : DspOps) (knobValue : F) : F :=
  if F.le knobValue (F.finite (1/2)) then
    let t := F.mul knobValue (F.finite 2)
    F.mul (F.finite (1/1000)) (ops.pow (F.finite 1000) t)
  else
    let t := F.mul (F.sub knobValue (F.finite (1/2))) (F.finite 2)
    F.add (F.finite 1) (F.mul t (F.finite 4))

/-- The valid prefix `[0, len)` of a buffer, as a list. -/
def bufferPrefix (buf : ℕ → F) (len : ℤ) : List F :=
  (List.range len.toNat).map buf

/-- `Alien4AudioEngine::rescanSlices`: no-op when nothing is recorded,
otherwise replace the slice list by a batch scan of the committed buffer
and clamp `currentSliceIndex` into range. -/
def rescanSlices (st : AlienState) (threshold minSliceTimeSec : F) : AlienState :=
  if st.recordedLength ≤ 0 then st
  else
    let minS := F.toInt (F.mul minSliceTimeSec st.sampleRate)
    let newSlices := detectSlices (bufferPrefix st.loopBuffer st.recordedLength) threshold minS
    let csi :=
      if (newSlices.length : ℤ) ≤ st.currentSliceIndex then
        if newSlices.isEmpty then 0 else (newSlices.length : ℤ) - 1
      else st.currentSliceIndex
    { st with slices := newSlices, currentSliceIndex := csi }

/-- Validity test of `redistributeVoices`: the negation of
`!slices[t].active || slices[t].startSample >= recordedLength`. -/
def validSliceR (slices : List Slice) (recordedLength t : ℤ) : Bool :=
  (slices.getD t.toNat default).active &&
    decide ((slices.getD t.toNat default).startSample < recordedLength)

/-- Validity test of `setPolyVoices`, which additionally rejects an index
at or past `slices.size()`. -/
def validSliceP (slices : List Slice) (recordedLength t : ℤ) : Bool :=
  decide (t < (slices.length : ℤ)) && validSliceR slices recordedLength t

/-- The bounded retry loop `while (attempts < 20 && !valid(t)) t = draw();`
with explicit fuel. -/
def drawValidLoop (valid : ℤ → Bool) (size : ℤ) :
    ℕ → ℤ → Rng → ℤ × Rng
  | 0, t, rng => (t, rng)
  | fuel + 1, t, rng =>
    if valid t then (t, rng)
    else
      let d := intDraw 0 (size - 1) rng
      drawValidLoop valid size fuel d.1 d.2

/-- `Alien4AudioEngine::redistributeVoices`. -/
def redistributeVoices (st : AlienState) : AlienState :=
  if st.slices.isEmpty || st.numVoices ≤ 1 || st.voices.isEmpty then st
  else
    let size := (st.slices.length : ℤ)
    let step := fun (acc : List Voice × Rng) (i : ℕ) =>
      let d := intDraw 0 (size - 1) acc.2
      let r := drawValidLoop (validSliceR st.slices st.recordedLength) size 20 d.1 d.2
      if validSliceR st.slices st.recordedLength r.1 then
        let spd := realDraw (F.finite (-2)) (F.finite 2) r.2
        (acc.1.set i
          { sliceIndex := r.1
            playbackPosition := (st.slices.getD r.1.toNat default).startSample
            playbackPhase := F.finite 0
            speedMultiplier := spd.1 }, spd.2)
      else (acc.1, r.2)
    let res := (List.range st.numVoices.toNat).drop 1 |>.foldl step (st.voices, st.rng)
    { st with voices := res.1, rng := res.2 }

/-- `std::vector::resize` on the voice pool: keep a prefix, default-fill
the rest. -/
def resizeVoices (l : List Voice) (n : ℕ) : List Voice :=
  l.take n ++ List.replicate (n - l.length) default

/-- `Alien4AudioEngine::setPolyVoices`. -/
def setPolyVoices (st : AlienState) (voicesCount : ℤ) : AlienState :=
  let newNumVoices := max 1 (min voicesCount 8)
  if newNumVoices = st.numVoices then st
  else
    let st := { st with numVoices := newNumVoices,
                        voices := resizeVoices st.voices newNumVoices.toNat }
    if ¬st.slices.isEmpty ∧ 1 < newNumVoices then
      let size := (st.slices.length : ℤ)
      let step := fun (acc : List Voice × Rng) (i : ℕ) =>
        if i = 0 then
          (acc.1.set 0
            { sliceIndex := st.currentSliceIndex
              playbackPosition := st.playbackPosition
              playbackPhase := st.playbackPhase
              speedMultiplier := F.finite 1 }, acc.2)
        else
          let d := intDraw 0 (size - 1) acc.2
          let r := drawValidLoop (validSliceP st.slices st.recordedLength) size 20 d.1 d.2
          let t := if validSliceP st.slices st.recordedLength r.1 then r.1
                   else st.currentSliceIndex
          let spd := realDraw (F.finite (-2)) (F.finite 2) r.2
          (acc.1.set i
            { sliceIndex := t
              playbackPosition := (st.slices.getD t.toNat default).startSample
              playbackPhase := F.finite 0
              speedMultiplier := spd.1 }, spd.2)
      let res := (List.range newNumVoices.toNat).foldl step (st.voices, st.rng)
      { st with voices := res.1, rng := res.2 }
    else
      { st with voices := st.voices.map fun _ =>
          { sliceIndex := st.currentSliceIndex
            playbackPosition := st.playbackPosition
            playbackPhase := st.playbackPhase
            speedMultiplier := F.finite 1 } }

/-- `Alien4AudioEngine::setRecording`. -/
def setRecording (ops : DspOps) (st : AlienState) (rec : Bool) : AlienState :=
  if rec ∧ ¬st.isRecording then
    { st with tempBuffer := fun _ => F.finite 0
              tempSlicesRev := []
              tempRecordPosition := 0
              tempRecordedLength := 0
              tempLastAmplitude := F.finite 0
              isRecording := true }
  else if ¬rec ∧ st.isRecording then
    let minSliceTimeSec := getMinSliceTime ops st.minSliceTime
    let minS := F.toInt (F.mul minSliceTimeSec st.sampleRate)
    let tempStack := finalizeSlices minS st.tempRecordedLength st.tempSlicesRev
    let st := { st with
      loopBuffer := st.tempBuffer
      slices := tempStack.reverse
      recordedLength := st.tempRecordedLength
      playbackPosition := 0
      playbackPhase := F.finite 0
      currentSliceIndex := 0
      lastAmplitude := F.finite 0
      voices := st.voices.map fun _ =>
        { sliceIndex := 0, playbackPosition := 0
          playbackPhase := F.finite 0, speedMultiplier := F.finite 1 }
      isRecording := false }
    if 1 < st.numVoices then redistributeVoices st else st
  else st

/-- `Alien4AudioEngine::setLooping`. -/
def setLooping (st : AlienState) (loop : Bool) : AlienState :=
  { st with looping := loop }

/-- `Alien4AudioEngine::setMinSliceTime`. -/
def setMinSliceTime (ops : DspOps) (st : AlienState) (time : F) : AlienState :=
  let m := F.clamp time (F.finite 0) (F.finite 1)
  let st := { st with minSliceTime := m }
  let actualTime := getMinSliceTime ops m
  if ¬st.isRecording ∧ 0 < st.recordedLength ∧
      F.lt (F.finite (1/1000)) (F.fabs (F.sub actualTime st.lastMinSliceTime)) then
    let st := rescanSlices st (F.finite (1/2)) actualTime
    let st := redistributeVoices st
    { st with lastMinSliceTime := actualTime }
  else st

/-- `Alien4AudioEngine::setScan`. -/
def setScan (st : AlienState) (scan : F) : AlienState :=
  let s := F.clamp scan (F.finite 0) (F.finite 1)
  let st := { st with scanValue := s }
  if F.lt (F.finite (1/1000)) (F.fabs (F.sub s st.lastScanValue)) then
    let st := redistributeVoices st
    { st with lastScanValue := s }
  else st

/-- `Alien4AudioEngine::setFeedback`. -/
def setFeedback (st : AlienState) (amount : F) : AlienState :=
  { st with feedbackAmount := F.clamp amount (F.finite 0) (F.finite (19/20)) }

/-- `Alien4AudioEngine::setMix`. -/
def setMix (st : AlienState) (mix : F) : AlienState :=
  { st with mixAmount := F.clamp mix (F.finite 0) (F.finite 1) }

/-- `Alien4AudioEngine::setSpeed`. -/
def setSpeed (st : AlienState) (spd : F) : AlienState :=
  { st with speed := F.clamp spd (F.finite (-8)) (F.finite 8) }

/-- `Alien4AudioEngine::setEQLow`. -/
def setEQLow (ops : DspOps) (st : AlienState) (gain : F) : AlienState :=
  { st with eq := eqSetLowGain ops st.eq gain }

/-- `Alien4AudioEngine::setEQMid`. -/
def setEQMid (ops : DspOps) (st : AlienState) (gain : F) : AlienState :=
  { st with eq := eqSetMidGain ops st.eq gain }

/-- `Alien4AudioEngine::setEQHigh`. -/
def setEQHigh (ops : DspOps) (st : AlienState) (gain : F) : AlienState :=
  { st with eq := eqSetHighGain ops st.eq gain }

/-- `Alien4AudioEngine::setDelayTime`. -/
def setDelayTime (st : AlienState) (timeL timeR : F) : AlienState :=
  { st with delay := delaySetDelayTime st.delay timeL timeR }

/-- `Alien4AudioEngine::setDelayFeedback`. -/
def setDelayFeedback (st : AlienState) (fb : F) : AlienState :=
  { st with delay := delaySetFeedback st.delay fb }

/-- `Alien4AudioEngine::setDelayWet`. -/
def setDelayWet (st : AlienState) (wet : F) : AlienState :=
  { st with delayWet := F.clamp wet (F.finite 0) (F.finite 1) }

/-- `Alien4AudioEngine::setReverbRoom`. -/
def setReverbRoom (st : AlienState) (room : F) : AlienState :=
  { st with reverb := reverbSetParameters st.reverb room (F.finite (-1)) (F.finite (-1)) }

/-- `Alien4AudioEngine::setReverbDamping`. -/
def setReverbDamping (st : AlienState) (damp : F) : AlienState :=
  { st with reverb := reverbSetParameters st.reverb (F.finite (-1)) damp (F.finite (-1)) }

/-- `Alien4AudioEngine::setReverbDecay`. -/
def setReverbDecay (st : AlienState) (dec : F) : AlienState :=
  { st with reverb := reverbSetParameters st.reverb (F.finite (-1)) (F.finite (-1)) dec }

/-- `Alien4AudioEngine::setReverbWet`. -/
def setReverbWet (st : AlienState) (wet : F) : AlienState :=
  { st with reverbWet := F.clamp wet (F.finite 0) (F.finite 1) }

/-- `Alien4AudioEngine::getNumSlices`. -/
def getNumSlices (st : AlienState) : ℤ := st.slices.length

/-- `Alien4AudioEngine::getCurrentSlice`. -/
def getCurrentSlice (st : AlienState) : ℤ := st.currentSliceIndex

/-!
### The per-sample render loop
-/

/-- The recording branch of the render loop (guard included). -/
def recordSampleStep (ops : DspOps) (st : AlienState) (input : F) : AlienState :=
  if st.isRecording ∧ st.tempRecordPosition < LOOP_BUFFER_SIZE then
    let st := { st with
      tempBuffer := updBuf st.tempBuffer st.tempRecordPosition input
      tempRecordedLength := st.tempRecordPosition + 1 }
    let threshold := F.finite (1/2)
    let minSliceTimeSec := getMinSliceTime ops st.minSliceTime
    let minS := F.toInt (F.mul minSliceTimeSec st.sampleRate)
    let r := sliceScanStep true threshold minS st.tempRecordPosition input
      (st.tempSlicesRev, st.tempLastAmplitude)
    { st with tempSlicesRev := r.1
              tempLastAmplitude := r.2
              tempRecordPosition := st.tempRecordPosition + 1 }
  else st

/-- The SCAN branch of the render loop. -/
def scanSampleStep (st : AlienState) : AlienState :=
  if 1 < (st.slices.length : ℤ) then
    if F.lt (F.finite (1/100)) st.scanValue then
      let target := F.roundInt (F.mul st.scanValue (F.ofInt ((st.slices.length : ℤ) - 1)))
      let target := max 0 (min target ((st.slices.length : ℤ) - 1))
      if target ≠ st.lastScanTargetIndex ∧ (st.slices.getD target.toNat default).active then
        let st := { st with
          currentSliceIndex := target
          playbackPosition := (st.slices.getD target.toNat default).startSample
          playbackPhase := F.finite 0
          lastScanTargetIndex := target }
        if 1 < st.numVoices ∧ ¬st.voices.isEmpty then
          let v0 := { st.voices.headD default with
            sliceIndex := target
            playbackPosition := (st.slices.getD target.toNat default).startSample
            playbackPhase := F.finite 0 }
          { st with voices := st.voices.set 0 v0 }
        else st
      else st
    else { st with lastScanTargetIndex := -1 }
  else st

/-- The interpolated loop-buffer read shared by the single- and
multi-voice paths; returns the clamped read position (written back to the
playback cursor by the caller) and the interpolated sample. -/
def readInterp (loopBuffer : ℕ → F) (recordedLength playbackPosition : ℤ)
    (playbackPhase : F) : ℤ × F :=
  let pos := max 0 (min playbackPosition (recordedLength - 1))
  let pos0 := pos
  let pos1 := if 1 < recordedLength then (pos0 + 1) % recordedLength else pos0
  let pos0 := max 0 (min pos0 (LOOP_BUFFER_SIZE - 1))
  let pos1 := max 0 (min pos1 (LOOP_BUFFER_SIZE - 1))
  let frac := F.clamp (F.fabs playbackPhase) (F.finite 0) (F.finite 1)
  let sample := F.add (F.mul (loopBuffer pos0.toNat) (F.sub (F.finite 1) frac))
    (F.mul (loopBuffer pos1.toNat) frac)
  (pos, sample)

/-- Single-voice playback (the `numVoices == 1 || voices.empty()` branch),
returning the updated state and the `(loopL, loopR)` accumulators.  Note
that this path assigns the interpolated sample to both accumulators
without a finiteness check. -/
def singleVoicePlayback (st : AlienState) : AlienState × F × F :=
  let playbackSpeed := st.speed
  let isReverse := F.lt playbackSpeed (F.finite 0)
  let phase := F.add st.playbackPhase playbackSpeed
  let positionDelta := F.toInt phase
  let phase := F.sub phase (F.ofInt positionDelta)
  let pos := st.playbackPosition + positionDelta
  let pos :=
    if ¬st.slices.isEmpty ∧ st.currentSliceIndex < (st.slices.length : ℤ) ∧
        (st.slices.getD st.currentSliceIndex.toNat default).active then
      let sliceStart := (st.slices.getD st.currentSliceIndex.toNat default).startSample
      let sliceEnd := (st.slices.getD st.currentSliceIndex.toNat default).endSample
      if isReverse then (if pos < sliceStart then sliceEnd else pos)
      else (if sliceEnd < pos then sliceStart else pos)
    else
      if isReverse then (if pos < 0 then st.recordedLength - 1 else pos)
      else (if st.recordedLength ≤ pos then 0 else pos)
  if 0 < st.recordedLength then
    let r := readInterp st.loopBuffer st.recordedLength pos phase
    ({ st with playbackPosition := r.1, playbackPhase := phase }, r.2, r.2)
  else
    ({ st with playbackPosition := pos, playbackPhase := phase },
     F.finite 0, F.finite 0)

/-- The guarded accumulator contribution of one voice in the multi-voice
path: a non-finite interpolated sample contributes zero, a finite one is
routed to the left or right accumulator by voice-index parity. -/
def voiceContribution (v : ℕ) (sample : F) : F × F :=
  if sample.isFinite then
    if v % 2 = 0 then (sample, F.finite 0) else (F.finite 0, sample)
  else (F.finite 0, F.finite 0)

/-- The body of the multi-voice loop for voice number `v`: advance the
voice, wrap at its slice (or the whole buffer), read with interpolation,
and return the updated voice and its accumulator contribution. -/
def voiceSampleStep (st : AlienState) (v : ℕ) (voice : Voice) :
    Voice × F × F :=
  let voiceSpeed := F.mul st.speed voice.speedMultiplier
  let voiceSpeed := F.clamp voiceSpeed (F.finite (-16)) (F.finite 16)
  let phase := F.add voice.playbackPhase voiceSpeed
  let positionDelta := F.toInt phase
  let phase := F.sub phase (F.ofInt positionDelta)
  let pos := voice.playbackPosition + positionDelta
  let voiceReverse := F.lt voiceSpeed (F.finite 0)
  let pos :=
    if ¬st.slices.isEmpty ∧ voice.sliceIndex < (st.slices.length : ℤ) ∧
        (st.slices.getD voice.sliceIndex.toNat default).active then
      let sliceStart := (st.slices.getD voice.sliceIndex.toNat default).startSample
      let sliceEnd := (st.slices.getD voice.sliceIndex.toNat default).endSample
      if voiceReverse then (if pos < sliceStart then sliceEnd else pos)
      else (if sliceEnd < pos then sliceStart else pos)
    else
      if voiceReverse then (if pos < 0 then st.recordedLength - 1 else pos)
      else (if st.recordedLength ≤ pos then 0 else pos)
  if 0 < st.recordedLength then
    let r := readInterp st.loopBuffer st.recordedLength pos phase
    let c := voiceContribution v r.2
    ({ voice with playbackPosition := r.1, playbackPhase := phase }, c)
  else
    ({ voice with playbackPosition := pos, playbackPhase := phase },
     F.finite 0, F.finite 0)

/-- Multi-voice playback: run every voice, normalize each channel by the
square root of its voice count, and mirror voice 0 into the engine's
primary playback state. -/
def multiVoicePlayback (ops : DspOps) (st : AlienState) : AlienState × F × F :=
  let res := (List.range st.numVoices.toNat).foldl
    (fun (acc : List Voice × F × F) v =>
      let r := voiceSampleStep st v (acc.1.getD v default)
      (acc.1.set v r.1, F.add acc.2.1 r.2.1, F.add acc.2.2 r.2.2))
    (st.voices, F.finite 0, F.finite 0)
  let voices := res.1
  let leftVoices := (st.numVoices + 1) / 2
  let rightVoices := st.numVoices / 2
  let loopL := if 0 < leftVoices then F.div res.2.1 (ops.sqrt (F.ofInt leftVoices))
               else res.2.1
  let loopR := if 0 < rightVoices then F.div res.2.2 (ops.sqrt (F.ofInt rightVoices))
               else res.2.2
  let st := { st with voices := voices }
  let st :=
    if ¬st.voices.isEmpty then
      { st with playbackPosition := (voices.headD default).playbackPosition
                playbackPhase := (voices.headD default).playbackPhase
                currentSliceIndex := (voices.headD default).sliceIndex }
    else st
  (st, loopL, loopR)

/-- The playback block of the render loop. -/
def playbackStep (ops : DspOps) (st : AlienState) : AlienState × F × F :=
  if 0 < st.recordedLength then
    if st.numVoices = 1 ∨ st.voices.isEmpty then singleVoicePlayback st
    else multiVoicePlayback ops st
  else (st, F.finite 0, F.finite 0)

/-- One iteration of `Alien4AudioEngine::process` up to (but not
including) the final output clamp: record, scan, play, mix, feed back,
EQ, delay, reverb.  Returns the updated state and the unclamped
`(finalL, finalR)` pair. -/
def processSampleCore (ops : DspOps) (st : AlienState) (input : F) :
    AlienState × F × F :=
  let st := recordSampleStep ops st input
  let st := scanSampleStep st
  let pb := playbackStep ops st
  let st := pb.1
  let loopL := pb.2.1
  let loopR := pb.2.2
  let mixL := F.add (F.mul input (F.sub (F.finite 1) st.mixAmount)) (F.mul loopL st.mixAmount)
  let mixR := F.add (F.mul input (F.sub (F.finite 1) st.mixAmount)) (F.mul loopR st.mixAmount)
  let fbL := F.div (ops.tanh (F.mul st.lastOutputL (F.finite (3/10)))) (F.finite (3/10))
  let fbR := F.div (ops.tanh (F.mul st.lastOutputR (F.finite (3/10)))) (F.finite (3/10))
  let mixL := F.add mixL (F.mul fbL st.feedbackAmount)
  let mixR := F.add mixR (F.mul fbR st.feedbackAmount)
  let er := eqProcessOne st.eq mixL mixR
  let dr := delayProcessOne st.delay er.2.1 er.2.2
  let delayMixL := F.add (F.mul er.2.1 (F.sub (F.finite 1) st.delayWet))
    (F.mul dr.2.1 st.delayWet)
  let delayMixR := F.add (F.mul er.2.2 (F.sub (F.finite 1) st.delayWet))
    (F.mul dr.2.2 st.delayWet)
  let rr := reverbProcessOne st.reverb delayMixL delayMixR
  let finalL := F.add (F.mul delayMixL (F.sub (F.finite 1) st.reverbWet))
    (F.mul rr.2.1 st.reverbWet)
  let finalR := F.add (F.mul delayMixR (F.sub (F.finite 1) st.reverbWet))
    (F.mul rr.2.2 st.reverbWet)
  let st := { st with eq := er.1, delay := dr.1, reverb := rr.1,
                      lastOutputL := finalL, lastOutputR := finalR }
  (st, finalL, finalR)

/-- One iteration of `Alien4AudioEngine::process`: the core pipeline
followed by the final output clamp to `[-10, 10]`. -/
def processSample (ops : DspOps) (st : AlienState) (input : F) :
    AlienState × F × F :=
  let r := processSampleCore ops st input
  (r.1, F.clamp r.2.1 (F.finite (-10)) (F.finite 10),
        F.clamp r.2.2 (F.finite (-10)) (F.finite 10))

/-- `Alien4AudioEngine::process` over a block of input samples (the
per-sample loop written as structural recursion), returning the final
state and both output channels in sample order. -/
def process (ops : DspOps) (st : AlienState) : List F → AlienState × List F × List F
  | [] => (st, [], [])
  | x :: xs =>
    let r := processSample ops st x
    let rest := process ops r.1 xs
    (rest.1, r.2.1 :: rest.2.1, r.2.2 :: rest.2.2)

/-- `Alien4AudioEngine::clear`. -/
def engineClear (st : AlienState) : AlienState :=
  { st with loopBuffer := fun _ => F.finite 0
            playbackPosition := 0
            playbackPhase := F.finite 0
            recordedLength := 0
            isRecording := false
            lastOutputL := F.finite 0
            lastOutputR := F.finite 0
            slices := []
            currentSliceIndex := 0
            lastAmplitude := F.finite 0
            lastScanTargetIndex := -1
            voices := []
            numVoices := 1
            eq := eqClear st.eq
            delay := delayClear st.delay
            reverb := reverbClear st.reverb }

/-- The public operation surface of the engine, for stating invariants
that hold after every public call. -/
inductive EngineOp where
  | opSetRecording (rec : Bool)
  | opSetLooping (loop : Bool)
  | opSetMinSliceTime (time : F)
  | opSetScan (scan : F)
  | opSetFeedback (amount : F)
  | opSetMix (mix : F)
  | opSetSpeed (spd : F)
  | opSetPolyVoices (n : ℤ)
  | opSetEQLow (g : F)
  | opSetEQMid (g : F)
  | opSetEQHigh (g : F)
  | opSetDelayTime (l r : F)
  | opSetDelayFeedback (fb : F)
  | opSetDelayWet (w : F)
  | opSetReverbRoom (x : F)
  | opSetReverbDamping (x : F)
  | opSetReverbDecay (x : F)
  | opSetReverbWet (x : F)
  | opProcess (inputs : List F)
  | opClear

/-- Dispatch one public operation. -/
def applyOp (ops : DspOps) (st : AlienState) : EngineOp → AlienState
  | .opSetRecording rec => setRecording ops st rec
  | .opSetLooping loop => setLooping st loop
  | .opSetMinSliceTime time => setMinSliceTime ops st time
  | .opSetScan scan => setScan st scan
  | .opSetFeedback amount => setFeedback st amount
  | .opSetMix mix => setMix st mix
  | .opSetSpeed spd => setSpeed st spd
  | .opSetPolyVoices n => setPolyVoices st n
  | .opSetEQLow g => setEQLow ops st g
  | .opSetEQMid g => setEQMid ops st g
  | .opSetEQHigh g => setEQHigh ops st g
  | .opSetDelayTime l r => setDelayTime st l r
  | .opSetDelayFeedback fb => setDelayFeedback st fb
  | .opSetDelayWet w => setDelayWet st w
  | .opSetReverbRoom x => setReverbRoom st x
  | .opSetReverbDamping x => setReverbDamping st x
  | .opSetReverbDecay x => setReverbDecay st x
  | .opSetReverbWet x => setReverbWet st x
  | .opProcess inputs => (process ops st inputs).1
  | .opClear => engineClear st

/-!
## Derived definitions used by the verification statements
-/

/-- The incremental detector as run while recording is armed: the scan
body with `requireOpen := true`, starting from the cleared temp state,
with a possibly different `minSliceSamples` value in effect at each
sample (the engine recomputes it from the live knob every sample). -/
def recordScanVar (threshold : F) (mins : ℕ → ℤ) (samples : List F) :
    List Slice × F :=
  samples.enum.foldl
    (fun st p => sliceScanStep true threshold (mins p.1) (p.1 : ℤ) p.2 st)
    ([], F.finite 0)

/-- The incremental detector with a constant minimum-length parameter. -/
def recordScan (threshold : F) (minSliceSamples : ℤ) (samples : List F) :
    List Slice × F :=
  recordScanVar threshold (fun _ => minSliceSamples) samples

/-- Ascending-order slice list: strictly increasing `startSample` and each
slice ending before the next one starts. -/
def slicesOrdered (l : List Slice) : Prop :=
  l.Chain' fun a b => a.startSample < b.startSample ∧ a.endSample < b.startSample

/-- Output value in the documented clamp range: a finite float in
`[-10, 10]`. -/
def inClampRange (x : F) : Prop :=
  ∃ q : ℚ, x = F.finite q ∧ -10 ≤ q ∧ q ≤ 10

/-- `ThreeBandEQ::process` over a list of stereo samples. -/
def eqProcessList (eq : ThreeBandEQ) (ins : List (F × F)) :
    ThreeBandEQ × List (F × F) :=
  let r := ins.foldl
    (fun (acc : ThreeBandEQ × List (F × F)) p =>
      let o := eqProcessOne acc.1 p.1 p.2
      (o.1, o.2 :: acc.2))
    (eq, [])
  (r.1, r.2.reverse)

/-- Basic well-formedness of the engine's slice bookkeeping: the current
slice index and every voice's slice index are non-negative. -/
def IndexesNonneg (st : AlienState) : Prop :=
  0 ≤ st.currentSliceIndex ∧ ∀ v ∈ st.voices, 0 ≤ v.sliceIndex

/-- The range property of the claimed `getCurrentSlice` invariant: `0`
when the committed list is empty, otherwise within
`[0, getNumSlices() - 1]`. -/
def CsiInRange (st : AlienState) : Prop :=
  (st.slices = [] ∧ st.currentSliceIndex = 0) ∨
  (0 ≤ st.currentSliceIndex ∧ st.currentSliceIndex < (st.slices.length : ℤ))

/-- Whether a public operation is the render entry point. -/
def isProcessOp : EngineOp → Bool
  | .opProcess _ => true
  | _ => false

/-- A concrete interpretation of the abstract transcendental functions,
used only to instantiate universally quantified theorems and to pin the
concrete execution traces (whose slice and index bookkeeping does not
depend on these functions: the traces below only use the exactly
representable right half of the min-slice-time knob curve, and `tanh`,
`sin`, `cos`, `pow` only feed the DSP sample values, never the slice or
index state). -/
def testOps : DspOps :=
  { tanh := fun _ => F.finite 0
    sqrt := fun x => x
    sin := fun _ => F.finite 0
    cos := fun _ => F.finite 0
    pow := fun _ _ => F.finite 1 }

/-- A deterministic instantiation of the random engine: every integer
draw is `0` and every real draw is the lower end of its range. -/
def zeroRng : Rng := { ints := [], rats := [] }

/-- The C2 test buffer: 1000 samples, all zero except samples 100..199
which are `1.0`. -/
def pulse1000 : List F :=
  List.replicate 100 (F.finite 0) ++ List.replicate 100 (F.finite 1) ++
    List.replicate 800 (F.finite 0)

/-!
### A concrete engine run (reachable states used by several
counterexamples)

Sample rate 2 Hz keeps the sample counts small; all knob values sit on
the exactly representable linear right half of the min-slice-time curve.
The run records 22 samples with onsets at 0, 4 and 16 (minimum slice
length 3 samples), commits them as three slices, switches to two voices,
scans the primary voice to slice 2, then raises the minimum slice time so
that a rescan shrinks the slice list to a single slice.  The rescan
clamps `currentSliceIndex` but leaves voice 0's stale slice index 2 in
place, and the next render call mirrors that stale index back into
`currentSliceIndex`.
-/

def traceA0 : AlienState := engineInit testOps (F.finite 2) zeroRng

def traceA1 : AlienState := setMinSliceTime testOps traceA0 (F.finite (3/5))

def traceA2 : AlienState := setRecording testOps traceA1 true

/-- 22 recorded samples with amplitude 1 at positions 0, 4 and 16. -/
def input22 : List F :=
  (List.range 22).map fun i =>
    if i = 0 ∨ i = 4 ∨ i = 16 then F.finite 1 else F.finite 0

def traceA3 : AlienState := (process testOps traceA2 input22).1

def traceA4 : AlienState := setRecording testOps traceA3 false

def traceA5 : AlienState := setPolyVoices traceA4 2

def traceA6 : AlienState := setScan traceA5 (F.finite 1)

def traceA7 : AlienState := (process testOps traceA6 [F.finite 0]).1

def traceA8 : AlienState := setMinSliceTime testOps traceA7 (F.finite 1)

def traceA9 : AlienState := (process testOps traceA8 [F.finite 0]).1

def traceA10 : AlienState := setPolyVoices traceA9 1

def traceA11 : AlienState := setPolyVoices traceA10 8

/-!
### A recording run whose minimum-slice-time knob moves mid-recording
(used against C6)

At sample rate 2, the knob starts at 0.6 (1.8 s, 3 samples), one slice
of length 4 closes under that minimum, the knob then moves to 1.0
(5 s, 10 samples) while recording continues, and the commit closes the
open slice under the new minimum.  The committed list keeps the earlier
4-sample slice even though the commit-time minimum is 10.
-/

def traceB2 : AlienState := setRecording testOps traceA1 true

def traceB3 : AlienState := (process testOps traceB2
  [F.finite 1, F.finite 0, F.finite 0, F.finite 0, F.finite 1]).1

def traceB4 : AlienState := setMinSliceTime testOps traceB3 (F.finite 1)

def traceB5 : AlienState :=
  (process testOps traceB4 (List.replicate 11 (F.finite 0))).1

def traceB6 : AlienState := setRecording testOps traceB5 false

/-!
### A recording of a single NaN sample (used against C4)

The NaN never crosses the detection threshold (every comparison with NaN
is false), so the commit produces an empty slice list with
`recordedLength = 1`; the next single-voice read interpolates
`nan*1 + nan*0 = nan` and assigns it to both loop accumulators unguarded.
-/

def traceC0 : AlienState := engineInit testOps (F.finite 48000) zeroRng

def traceC1 : AlienState := setRecording testOps traceC0 true

def traceC2 : AlienState := (process testOps traceC1 [F.nan]).1

def traceC3 : AlienState := setRecording testOps traceC2 false

/-!
### The specification's reading of the reverb topology (claim C8)

The claim's words describe *per-channel* diffusion: each channel owns two
series allpass stages.  `reverbSpecProcessOne` follows those words (same
comb and allpass primitives, but two allpass stages per channel with
channel-private buffers) so that it can be compared against the code's
topology, which runs *four* allpass stages through buffers *shared* by
the two channels.
-/

/-- Reverb state as the claim describes it: the comb section as in the
code, but with two channel-private allpass stages per channel. -/
structure ReverbSpecState where
  sampleRate : F
  combBufL : Fin 4 → ℕ → F
  combBufR : Fin 4 → ℕ → F
  combIdxL : Fin 4 → ℤ
  combIdxR : Fin 4 → ℤ
  combLpL : Fin 4 → F
  combLpR : Fin 4 → F
  apBufL : Fin 2 → ℕ → F
  apBufR : Fin 2 → ℕ → F
  apIdxL : Fin 2 → ℤ
  apIdxR : Fin 2 → ℤ
  hpStateL : F := F.finite 0
  hpStateR : F := F.finite 0
  roomSize : F := F.finite (1/2)
  damping : F := F.finite (2/5)
  decay : F := F.finite (3/5)

/-- One sample of the reverb as the claim C8 describes it: per channel,
4 parallel combs summed and scaled by 0.25, then exactly 2 series allpass
stages belonging to that channel, then the one-pole highpass.  The
allpass sizes (`apSizeL`, `apSizeR`) are parameters because the claim
only says "fixed sizes". -/
def reverbSpecProcessOne (rv : ReverbSpecState) (apSizeL apSizeR : Fin 2 → ℤ)
    (inL inR : F) : ReverbSpecState × F × F :=
  let feedback := F.add (F.finite (1/2)) (F.mul rv.decay (F.finite (97/200)))
  let feedback := F.cppMax (F.finite 0) (F.cppMin (F.finite (199/200)) feedback)
  let dampingCoeff := F.add (F.finite (1/20)) (F.mul rv.damping (F.finite (9/10)))
  let roomScale := F.add (F.finite (3/10)) (F.mul rv.roomSize (F.finite (7/5)))
  let inputL := F.mul inL roomScale
  let inputR := F.mul inR roomScale
  let cL := combLoop (fun j => combSizes ⟨j.val, by omega⟩) rv.combBufL rv.combIdxL
    rv.combLpL inputL feedback dampingCoeff
  let cR := combLoop (fun j => combSizes ⟨j.val + 4, by omega⟩) rv.combBufR rv.combIdxR
    rv.combLpR inputR feedback dampingCoeff
  let combOutL := F.mul cL.2.2.2 (F.finite (1/4))
  let combOutR := F.mul cR.2.2.2 (F.finite (1/4))
  let aL0 := processAllpassFilter (apSizeL 0) (rv.apBufL 0) (rv.apIdxL 0) combOutL
  let aL1 := processAllpassFilter (apSizeL 1) (rv.apBufL 1) (rv.apIdxL 1) aL0.2.2
  let aR0 := processAllpassFilter (apSizeR 0) (rv.apBufR 0) (rv.apIdxR 0) combOutR
  let aR1 := processAllpassFilter (apSizeR 1) (rv.apBufR 1) (rv.apIdxR 1) aR0.2.2
  let diffusedL := aL1.2.2
  let diffusedR := aR1.2.2
  let hpCutoff := F.div (F.finite 100) (F.mul rv.sampleRate (F.finite (1/2)))
  let hpCutoff := F.cppMax (F.finite (1/1000)) (F.cppMin (F.finite (1/10)) hpCutoff)
  let hpStateL := F.add rv.hpStateL (F.mul (F.sub diffusedL rv.hpStateL) hpCutoff)
  let hpStateR := F.add rv.hpStateR (F.mul (F.sub diffusedR rv.hpStateR) hpCutoff)
  let outL := F.sub diffusedL hpStateL
  let outR := F.sub diffusedR hpStateR
  ({ rv with combBufL := cL.1, combIdxL := cL.2.1, combLpL := cL.2.2.1,
             combBufR := cR.1, combIdxR := cR.2.1, combLpR := cR.2.2.1,
             apBufL := fun j => if j = 0 then aL0.1 else aL1.1
             apBufR := fun j => if j = 0 then aR0.1 else aR1.1
             apIdxL := fun j => if j = 0 then aL0.2.1 else aL1.2.1
             apIdxR := fun j => if j = 0 then aR0.2.1 else aR1.2.1
             hpStateL := hpStateL, hpStateR := hpStateR }, outL, outR)

/-- The code reverb at defaults, with `1.0` planted at slot 0 of each
left comb buffer and cleared allpass buffers, so that one sample already
produces a nonzero diffused output. -/
def rvCodeC8 : ReverbProcessor :=
  { reverbInit (F.finite 48000) with
      combBufL := fun _ => fun j => if j = 0 then F.finite 1 else F.finite 0 }

/-- The same planted state for the claim's per-channel topology. -/
def rvSpecC8 : ReverbSpecState :=
  { sampleRate := F.finite 48000
    combBufL := fun _ => fun j => if j = 0 then F.finite 1 else F.finite 0
    combBufR := fun _ _ => F.finite 0
    combIdxL := fun _ => 0
    combIdxR := fun _ => 0
    combLpL := fun _ => F.finite 0
    combLpR := fun _ => F.finite 0
    apBufL := fun _ _ => F.finite 0
    apBufR := fun _ _ => F.finite 0
    apIdxL := fun _ => 0
    apIdxR := fun _ => 0 }

/-- The left output of the code's reverb step, written as a read-only
expression: the four left comb-buffer reads summed and scaled by 0.25,
diffused through all four shared allpass stages (the left sample reads
shared buffer `j` at its current index), then the one-pole highpass. -/
def reverbAmendedOutL (rv : ReverbProcessor) : F :=
  let combOutL := F.mul
    (F.add (F.add (F.add (F.add (F.finite 0)
      (rv.combBufL 0 (rv.combIdxL 0).toNat))
      (rv.combBufL 1 (rv.combIdxL 1).toNat))
      (rv.combBufL 2 (rv.combIdxL 2).toNat))
      (rv.combBufL 3 (rv.combIdxL 3).toNat))
    (F.finite (1/4))
  let d0 := F.add (F.mul (F.neg combOutL) (F.finite (1/2))) (rv.apBuf 0 (rv.apIdx 0).toNat)
  let d1 := F.add (F.mul (F.neg d0) (F.finite (1/2))) (rv.apBuf 1 (rv.apIdx 1).toNat)
  let d2 := F.add (F.mul (F.neg d1) (F.finite (1/2))) (rv.apBuf 2 (rv.apIdx 2).toNat)
  let d3 := F.add (F.mul (F.neg d2) (F.finite (1/2))) (rv.apBuf 3 (rv.apIdx 3).toNat)
  let hpCutoff := F.div (F.finite 100) (F.mul rv.sampleRate (F.finite (1/2)))
  let hpCutoff := F.cppMax (F.finite (1/1000)) (F.cppMin (F.finite (1/10)) hpCutoff)
  F.sub d3 (F.add rv.hpStateL (F.mul (F.sub d3 rv.hpStateL) hpCutoff))

/-- The right output of the code's reverb step as a read-only expression:
because the two channels share the four allpass buffers and the left
sample passes each stage first, the right sample reads each shared buffer
one slot past its index. -/
def reverbAmendedOutR (rv : ReverbProcessor) : F :=
  let combOutR := F.mul
    (F.add (F.add (F.add (F.add (F.finite 0)
      (rv.combBufR 0 (rv.combIdxR 0).toNat))
      (rv.combBufR 1 (rv.combIdxR 1).toNat))
      (rv.combBufR 2 (rv.combIdxR 2).toNat))
      (rv.combBufR 3 (rv.combIdxR 3).toNat))
    (F.finite (1/4))
  let d0 := F.add (F.mul (F.neg combOutR) (F.finite (1/2)))
    (rv.apBuf 0 (((rv.apIdx 0 + 1) % allpassSizes 0).toNat))
  let d1 := F.add (F.mul (F.neg d0) (F.finite (1/2)))
    (rv.apBuf 1 (((rv.apIdx 1 + 1) % allpassSizes 1).toNat))
  let d2 := F.add (F.mul (F.neg d1) (F.finite (1/2)))
    (rv.apBuf 2 (((rv.apIdx 2 + 1) % allpassSizes 2).toNat))
  let d3 := F.add (F.mul (F.neg d2) (F.finite (1/2)))
    (rv.apBuf 3 (((rv.apIdx 3 + 1) % allpassSizes 3).toNat))
  let hpCutoff := F.div (F.finite 100) (F.mul rv.sampleRate (F.finite (1/2)))
  let hpCutoff := F.cppMax (F.finite (1/1000)) (F.cppMin (F.finite (1/10)) hpCutoff)
  F.sub d3 (F.add rv.hpStateR (F.mul (F.sub d3 rv.hpStateR) hpCutoff))

/-!
### EQ identity predicates (claim C9)

At 0 dB every band's coefficients degenerate to `b0 = 1`, `b1 = a1`,
`b2 = a2`; a biquad with such coefficients and a "mirrored" state
(`x1 = y1`, `x2 = y2`, per channel) maps every finite input to itself and
keeps the state mirrored.
-/

/-- Identity-form biquad coefficients: `b0 = 1`, the feedforward and
feedback coefficients pairwise equal, both finite. -/
def IdCoeffs (c : BiquadCoeffs) : Prop :=
  c.b0 = F.finite 1 ∧ c.b1 = c.a1 ∧ c.b2 = c.a2 ∧
  (∃ r : ℚ, c.a1 = F.finite r) ∧ (∃ r : ℚ, c.a2 = F.finite r)

/-- Mirrored, all-finite biquad state: on each channel the input history
equals the output history. -/
def MirrorSt (s : BiquadState) : Prop :=
  ∃ p1 p2 q1 q2 : ℚ,
    s.x1 = F.finite p1 ∧ s.y1 = F.finite p1 ∧
    s.x2 = F.finite p2 ∧ s.y2 = F.finite p2 ∧
    s.x1r = F.finite q1 ∧ s.y1r = F.finite q1 ∧
    s.x2r = F.finite q2 ∧ s.y2r = F.finite q2

/-- The invariant of the 0 dB EQ: all three bands carry identity-form
coefficients and mirrored states. -/
def EqIdInv (eq : ThreeBandEQ) : Prop :=
  IdCoeffs eq.lowShelf ∧ IdCoeffs eq.midPeak ∧ IdCoeffs eq.highShelf ∧
  MirrorSt eq.lowState ∧ MirrorSt eq.midState ∧ MirrorSt eq.highState

/-- A concrete interpretation of the transcendental functions used to
instantiate the C9 identity theorem: `pow` constantly `1` (so the 0 dB
amplitude is exact), `sqrt` the identity (so `sqrt 1 = 1`), `sin`/`cos` a
3-4-5 pair. -/
def idOps : DspOps :=
  { tanh := fun x => x, sqrt := fun x => x,
    sin := fun _ => F.finite (3/5), cos := fun _ => F.finite (4/5),
    pow := fun _ _ => F.finite 1 }

/-!
### Scan invariants

The detector's stack (most-recent-first) keeps these shape invariants as
the scan advances; together they give the ordering, non-overlap and
minimum-length properties of the produced slice lists.
-/

/-- Stack ordering, most-recent-first: each older slice starts, and ends,
strictly before the next newer slice starts. -/
def stackOrdered (stack : List Slice) : Prop :=
  stack.Chain' fun newer older =>
    older.startSample < newer.startSample ∧ older.endSample < newer.startSample

/-- Positional bounds at scan position `pos`: every slice on the stack
was opened (and closed) strictly before `pos`, at a non-negative
position, and is active. -/
def stackBounds (pos : ℤ) (stack : List Slice) : Prop :=
  ∀ s ∈ stack, 0 ≤ s.startSample ∧ s.startSample < pos ∧ s.endSample < pos ∧
    s.active = true

/-- Everything below the top of the stack is closed (`endSample > 0`). -/
def stackTailClosed (stack : List Slice) : Prop :=
  ∀ s ∈ stack.tail, 0 < s.endSample

/-- Every closed slice on the stack is at least `m` samples long. -/
def stackMinLen (m : ℤ) (stack : List Slice) : Prop :=
  ∀ s ∈ stack, s.endSample = 0 ∨ m ≤ s.endSample - s.startSample + 1

/-!
## Theorems
-/

theorem stackOrdered_nil : stackOrdered [] := List.chain'_nil

theorem stackOrdered_peakUpd (amp : F) (stack : List Slice)
    (h : stackOrdered stack) : stackOrdered (peakUpd amp stack) := by
  cases stack with
  | nil => exact h
  | cons back rest =>
    simp only [peakUpd]
    split
    · unfold stackOrdered at h ⊢
      rw [List.chain'_cons'] at h ⊢
      exact h
    · exact h

theorem stackBounds_peakUpd (amp : F) (pos : ℤ) (stack : List Slice)
    (h : stackBounds pos stack) : stackBounds pos (peakUpd amp stack) := by
  cases stack with
  | nil => exact h
  | cons back rest =>
    simp only [peakUpd]
    split
    · intro s hs
      rw [List.mem_cons] at hs
      rcases hs with rfl | hs
      · simpa using h back (List.mem_cons_self _ _)
      · exact h s (List.mem_cons_of_mem _ hs)
    · exact h

theorem stackTailClosed_peakUpd (amp : F) (stack : List Slice)
    (h : stackTailClosed stack) : stackTailClosed (peakUpd amp stack) := by
  cases stack with
  | nil => exact h
  | cons back rest =>
    simp only [peakUpd]
    split
    · exact h
    · exact h

theorem stackMinLen_peakUpd (amp : F) (m : ℤ) (stack : List Slice)
    (h : stackMinLen m stack) : stackMinLen m (peakUpd amp stack) := by
  cases stack with
  | nil => exact h
  | cons back rest =>
    simp only [peakUpd]
    split
    · intro s hs
      rw [List.mem_cons] at hs
      rcases hs with rfl | hs
      · simpa using h back (List.mem_cons_self _ _)
      · exact h s (List.mem_cons_of_mem _ hs)
    · exact h

theorem stackOrdered_closeBack (req : Bool) (m pos : ℤ) (stack : List Slice)
    (h : stackOrdered stack) : stackOrdered (closeBack req m pos stack) := by
  cases stack with
  | nil => exact h
  | cons back rest =>
    simp only [closeBack]
    split
    · split
      · unfold stackOrdered at h ⊢
        rw [List.chain'_cons'] at h ⊢
        exact h
      · exact (List.chain'_cons'.mp h).2
    · exact h

theorem stackBounds_closeBack (req : Bool) (m pos : ℤ) (stack : List Slice)
    (h : stackBounds pos stack) : stackBounds pos (closeBack req m pos stack) := by
  cases stack with
  | nil => exact h
  | cons back rest =>
    simp only [closeBack]
    split
    · split
      · intro s hs
        rw [List.mem_cons] at hs
        rcases hs with rfl | hs
        · have hb := h back (List.mem_cons_self _ _)
          refine ⟨hb.1, hb.2.1, ?_, hb.2.2.2⟩
          simp only []
          omega
        · exact h s (List.mem_cons_of_mem _ hs)
      · exact fun s hs => h s (List.mem_cons_of_mem _ hs)
    · exact h

theorem stackTailClosed_closeBack (req : Bool) (m pos : ℤ) (stack : List Slice)
    (h : stackTailClosed stack) : stackTailClosed (closeBack req m pos stack) := by
  cases stack with
  | nil => exact h
  | cons back rest =>
    simp only [closeBack]
    split
    · split
      · exact h
      · exact fun s hs => h s (List.mem_of_mem_tail hs)
    · exact h

theorem stackMinLen_closeBack (req : Bool) (m pos : ℤ) (stack : List Slice)
    (h : stackMinLen m stack) : stackMinLen m (closeBack req m pos stack) := by
  cases stack with
  | nil => exact h
  | cons back rest =>
    simp only [closeBack]
    split
    · split
      · intro s hs
        rw [List.mem_cons] at hs
        rcases hs with rfl | hs
        · right
          simp only []
          omega
        · exact h s (List.mem_cons_of_mem _ hs)
      · exact fun s hs => h s (List.mem_cons_of_mem _ hs)
    · exact h

theorem stackOrdered_pushNew (pos : ℤ) (stack : List Slice)
    (hord : stackOrdered stack) (hb : stackBounds pos stack) :
    stackOrdered (pushNew pos stack) := by
  cases stack with
  | nil => exact List.chain'_singleton _
  | cons back rest =>
    simp only [pushNew]
    split
    · unfold stackOrdered
      rw [List.chain'_cons]
      refine ⟨?_, hord⟩
      have hb1 := hb back (List.mem_cons_self _ _)
      exact ⟨hb1.2.1, hb1.2.2.1⟩
    · exact hord

theorem stackBounds_pushNew (pos : ℤ) (stack : List Slice)
    (hpos : 0 ≤ pos) (h : stackBounds pos stack) :
    stackBounds (pos + 1) (pushNew pos stack) := by
  have hmono : ∀ s ∈ stack, 0 ≤ s.startSample ∧ s.startSample < pos + 1 ∧
      s.endSample < pos + 1 ∧ s.active = true := by
    intro s hs
    have := h s hs
    exact ⟨this.1, by omega, by omega, this.2.2.2⟩
  cases stack with
  | nil =>
    intro s hs
    simp only [pushNew, List.mem_singleton] at hs
    subst hs
    exact ⟨hpos, by show pos < pos + 1; omega, by show (0:ℤ) < pos + 1; omega, rfl⟩
  | cons back rest =>
    simp only [pushNew]
    split
    · intro s hs
      rw [List.mem_cons] at hs
      rcases hs with rfl | hs
      · exact ⟨hpos, by show pos < pos + 1; omega, by show (0:ℤ) < pos + 1; omega, rfl⟩
      · exact hmono s hs
    · exact hmono

theorem stackTailClosed_pushNew (pos : ℤ) (stack : List Slice)
    (h : stackTailClosed stack) : stackTailClosed (pushNew pos stack) := by
  cases stack with
  | nil => intro s hs; simp [pushNew] at hs
  | cons back rest =>
    simp only [pushNew]
    split
    · intro s hs
      rw [List.tail_cons, List.mem_cons] at hs
      rcases hs with rfl | hs
      · assumption
      · exact h s hs
    · exact h

theorem stackMinLen_pushNew (pos m : ℤ) (stack : List Slice)
    (h : stackMinLen m stack) : stackMinLen m (pushNew pos stack) := by
  cases stack with
  | nil =>
    intro s hs
    simp only [pushNew, List.mem_singleton] at hs
    subst hs
    exact Or.inl rfl
  | cons back rest =>
    simp only [pushNew]
    split
    · intro s hs
      rw [List.mem_cons] at hs
      rcases hs with rfl | hs
      · exact Or.inl rfl
      · exact h s hs
    · exact h

theorem stackBounds_mono (pos : ℤ) (stack : List Slice)
    (h : stackBounds pos stack) : stackBounds (pos + 1) stack := by
  intro s hs
  have := h s hs
  exact ⟨this.1, by omega, by omega, this.2.2.2⟩

theorem scanStep_shape (req : Bool) (th : F) (m pos : ℤ) (x : F)
    (stack : List Slice) (amp : F) (hpos : 0 ≤ pos)
    (hord : stackOrdered stack) (hb : stackBounds pos stack)
    (htc : stackTailClosed stack) :
    stackOrdered (sliceScanStep req th m pos x (stack, amp)).1 ∧
    stackBounds (pos + 1) (sliceScanStep req th m pos x (stack, amp)).1 ∧
    stackTailClosed (sliceScanStep req th m pos x (stack, amp)).1 := by
  simp only [sliceScanStep]
  split
  · refine ⟨stackOrdered_peakUpd _ _ ?_, stackBounds_peakUpd _ _ _ ?_,
      stackTailClosed_peakUpd _ _ ?_⟩
    · exact stackOrdered_pushNew pos _
        (stackOrdered_closeBack req m pos stack hord)
        (stackBounds_closeBack req m pos stack hb)
    · exact stackBounds_pushNew pos _ hpos (stackBounds_closeBack req m pos stack hb)
    · exact stackTailClosed_pushNew pos _ (stackTailClosed_closeBack req m pos stack htc)
  · exact ⟨stackOrdered_peakUpd _ _ hord,
      stackBounds_peakUpd _ _ _ (stackBounds_mono pos stack hb),
      stackTailClosed_peakUpd _ _ htc⟩

theorem scanStep_minLen (req : Bool) (th : F) (m pos : ℤ) (x : F)
    (stack : List Slice) (amp : F) (h : stackMinLen m stack) :
    stackMinLen m (sliceScanStep req th m pos x (stack, amp)).1 := by
  simp only [sliceScanStep]
  split
  · exact stackMinLen_peakUpd _ _ _
      (stackMinLen_pushNew pos m _ (stackMinLen_closeBack req m pos stack h))
  · exact stackMinLen_peakUpd _ _ _ h

theorem stackBounds_of_le (p q : ℤ) (stack : List Slice) (hpq : p ≤ q)
    (h : stackBounds p stack) : stackBounds q stack := by
  intro s hs
  have := h s hs
  exact ⟨this.1, by omega, by omega, this.2.2.2⟩

theorem scanFold_shape (req : Bool) (th : F) (mins : ℕ → ℤ) :
    ∀ (samples : List F) (n : ℕ) (stack : List Slice) (amp : F),
    stackOrdered stack → stackBounds (n : ℤ) stack → stackTailClosed stack →
    stackOrdered ((List.enumFrom n samples).foldl
      (fun st p => sliceScanStep req th (mins p.1) (p.1 : ℤ) p.2 st) (stack, amp)).1 ∧
    stackBounds ((n : ℤ) + samples.length) ((List.enumFrom n samples).foldl
      (fun st p => sliceScanStep req th (mins p.1) (p.1 : ℤ) p.2 st) (stack, amp)).1 ∧
    stackTailClosed ((List.enumFrom n samples).foldl
      (fun st p => sliceScanStep req th (mins p.1) (p.1 : ℤ) p.2 st) (stack, amp)).1 := by
  intro samples
  induction samples with
  | nil =>
    intro n stack amp hord hb htc
    simpa using ⟨hord, hb, htc⟩
  | cons x xs ih =>
    intro n stack amp hord hb htc
    rw [List.enumFrom_cons, List.foldl_cons]
    have hstep := scanStep_shape req th (mins n) (n : ℤ) x stack amp
      (by positivity) hord hb htc
    have hrec := ih (n + 1) (sliceScanStep req th (mins n) (n : ℤ) x (stack, amp)).1
      (sliceScanStep req th (mins n) (n : ℤ) x (stack, amp)).2
      hstep.1 (by exact_mod_cast hstep.2.1) hstep.2.2
    refine ⟨hrec.1, ?_, hrec.2.2⟩
    exact stackBounds_of_le _ _ _ (by simp only [List.length_cons]; push_cast; omega) hrec.2.1

theorem scanFold_minLen (req : Bool) (th : F) (m : ℤ) :
    ∀ (samples : List F) (n : ℕ) (stack : List Slice) (amp : F),
    stackMinLen m stack →
    stackMinLen m ((List.enumFrom n samples).foldl
      (fun st p => sliceScanStep req th m (p.1 : ℤ) p.2 st) (stack, amp)).1 := by
  intro samples
  induction samples with
  | nil => intro n stack amp h; simpa using h
  | cons x xs ih =>
    intro n stack amp h
    rw [List.enumFrom_cons, List.foldl_cons]
    exact ih (n + 1) _ _ (scanStep_minLen req th m (n : ℤ) x stack amp h)

theorem stackOrdered_finalize (m len : ℤ) (stack : List Slice)
    (h : stackOrdered stack) : stackOrdered (finalizeSlices m len stack) := by
  cases stack with
  | nil => exact h
  | cons back rest =>
    simp only [finalizeSlices]
    split
    · split
      · unfold stackOrdered at h ⊢
        rw [List.chain'_cons'] at h ⊢
        exact h
      · exact (List.chain'_cons'.mp h).2
    · exact h

theorem stackMinLen_finalize (m len : ℤ) (stack : List Slice)
    (hml : stackMinLen m stack) (htc : stackTailClosed stack)
    (hact : ∀ s ∈ stack, s.active = true) :
    ∀ s ∈ finalizeSlices m len stack, m ≤ s.endSample - s.startSample + 1 := by
  cases stack with
  | nil => intro s hs; simp [finalizeSlices] at hs
  | cons back rest =>
    have hrest : ∀ s ∈ rest, m ≤ s.endSample - s.startSample + 1 := by
      intro s hs
      rcases hml s (List.mem_cons_of_mem _ hs) with h0 | h1
      · have := htc s (by simpa using hs)
        omega
      · exact h1
    simp only [finalizeSlices]
    split
    · split
      · intro s hs
        rw [List.mem_cons] at hs
        rcases hs with rfl | hs
        · simp only []
          omega
        · exact hrest s hs
      · exact hrest
    · intro s hs
      rw [List.mem_cons] at hs
      rcases hs with rfl | hs
      · rcases hml s (List.mem_cons_self _ _) with h0 | h1
        · exfalso
          rename_i hcond
          exact hcond (by simp [hact s (List.mem_cons_self _ _), h0])
        · exact h1
      · exact hrest s hs

theorem slicesOrdered_of_stackOrdered (stack : List Slice)
    (h : stackOrdered stack) : slicesOrdered stack.reverse := by
  unfold slicesOrdered
  rw [List.chain'_reverse]
  exact h

theorem scanFold_active (req : Bool) (th : F) (mins : ℕ → ℤ)
    (samples : List F) :
    ∀ s ∈ ((List.enumFrom 0 samples).foldl
      (fun st p => sliceScanStep req th (mins p.1) (p.1 : ℤ) p.2 st)
      ([], F.finite 0)).1, s.active = true := by
  intro s hs
  have h := (scanFold_shape req th mins samples 0 [] (F.finite 0)
    List.chain'_nil (by intro s hs; simp at hs) (by intro s hs; simp at hs)).2.1
  exact (h s hs).2.2.2

/-- C5, batch part, on the raw stack. -/
theorem detect_stack_props (samples : List F) (th : F) (m : ℤ) :
    stackOrdered ((List.enumFrom 0 samples).foldl
      (fun st p => sliceScanStep false th m (p.1 : ℤ) p.2 st)
      ([], F.finite 0)).1 ∧
    stackTailClosed ((List.enumFrom 0 samples).foldl
      (fun st p => sliceScanStep false th m (p.1 : ℤ) p.2 st)
      ([], F.finite 0)).1 := by
  have h := scanFold_shape false th (fun _ => m) samples 0 [] (F.finite 0)
    List.chain'_nil (by intro s hs; simp at hs) (by intro s hs; simp at hs)
  exact ⟨h.1, h.2.2⟩

/-- C5: every slice list produced by the detector — the batch rescan over
a committed buffer, the incremental scan while recording (under any
per-sample minimum), and the commit-time finalization of that scan — is
strictly ordered by `startSample` with each slice ending before the next
begins. -/
theorem c5_slice_lists_ordered :
    (∀ (samples : List F) (th : F) (m : ℤ),
      slicesOrdered (detectSlices samples th m)) ∧
    (∀ (th : F) (mins : ℕ → ℤ) (samples : List F),
      slicesOrdered (recordScanVar th mins samples).1.reverse) ∧
    (∀ (th : F) (mins : ℕ → ℤ) (samples : List F) (m len : ℤ),
      slicesOrdered (finalizeSlices m len (recordScanVar th mins samples).1).reverse) := by
  refine ⟨?_, ?_, ?_⟩
  · intro samples th m
    apply slicesOrdered_of_stackOrdered
    apply stackOrdered_finalize
    exact (detect_stack_props samples th m).1
  · intro th mins samples
    apply slicesOrdered_of_stackOrdered
    exact (scanFold_shape true th mins samples 0 [] (F.finite 0)
      List.chain'_nil (by intro s hs; simp at hs) (by intro s hs; simp at hs)).1
  · intro th mins samples m len
    apply slicesOrdered_of_stackOrdered
    apply stackOrdered_finalize
    exact (scanFold_shape true th mins samples 0 [] (F.finite 0)
      List.chain'_nil (by intro s hs; simp at hs) (by intro s hs; simp at hs)).1

/-- C6 (amended): every slice produced by a batch rescan is at least
`minSliceSamples` long for the `minSliceSamples` of that rescan; every
slice committed by stop-recording is at least `minSliceSamples` long
provided the minimum-slice-time parameter did not change during the
recording (the per-sample detector and the commit then use the same
minimum). -/
theorem c6_committed_slices_min_length :
    (∀ (samples : List F) (th : F) (m : ℤ),
      (detectSlices samples th m).Forall
        fun s => m ≤ s.endSample - s.startSample + 1) ∧
    (∀ (th : F) (m len : ℤ) (samples : List F),
      ((finalizeSlices m len (recordScan th m samples).1).reverse).Forall
        fun s => m ≤ s.endSample - s.startSample + 1) := by
  constructor
  · intro samples th m
    rw [List.forall_iff_forall_mem]
    intro s hs
    rw [detectSlices, List.mem_reverse] at hs
    revert s hs
    apply stackMinLen_finalize
    · exact scanFold_minLen false th m samples 0 [] (F.finite 0)
        (by intro s hs; simp at hs)
    · exact (detect_stack_props samples th m).2
    · exact scanFold_active false th (fun _ => m) samples
  · intro th m len samples
    rw [List.forall_iff_forall_mem]
    intro s hs
    rw [List.mem_reverse] at hs
    revert s hs
    apply stackMinLen_finalize
    · exact scanFold_minLen true th m samples 0 [] (F.finite 0)
        (by intro s hs; simp at hs)
    · exact (scanFold_shape true th (fun _ => m) samples 0 [] (F.finite 0)
        List.chain'_nil (by intro s hs; simp at hs) (by intro s hs; simp at hs)).2.2
    · intro s hs
      exact ((scanFold_shape true th (fun _ => m) samples 0 [] (F.finite 0)
        List.chain'_nil (by intro s hs; simp at hs)
        (by intro s hs; simp at hs)).2.1 s hs).2.2.2

theorem F.le_zero_eq_false_of_lt (th : F) (h : F.lt (F.finite 0) th = true) :
    F.le th (F.finite 0) = false := by
  cases th with
  | finite q =>
    simp only [F.lt, decide_eq_true_eq] at h
    simp only [F.le, decide_eq_false_iff_not]
    exact not_le.mpr h
  | pinf => rfl
  | ninf => simp [F.lt] at h
  | nan => simp [F.lt] at h

theorem scanFold_zeros (req : Bool) (th : F) (mins : ℕ → ℤ)
    (h : F.lt (F.finite 0) th = true) :
    ∀ (k n : ℕ),
    (List.enumFrom n (List.replicate k (F.finite 0))).foldl
      (fun st p => sliceScanStep req th (mins p.1) (p.1 : ℤ) p.2 st)
      ([], F.finite 0) = ([], F.finite 0) := by
  intro k
  induction k with
  | zero => intro n; rfl
  | succ k ih =>
    intro n
    rw [List.replicate_succ, List.enumFrom_cons, List.foldl_cons]
    have hstep : sliceScanStep req th (mins n) (n : ℤ) (F.finite 0)
        ([], F.finite 0) = ([], F.finite 0) := by
      simp [sliceScanStep, F.fabs, abs_zero, F.le_zero_eq_false_of_lt th h, peakUpd]
    rw [hstep]
    exact ih (n + 1)

/-- C7: scanning an all-zero buffer of any length with any strictly
positive threshold produces no slices — both for the bare detector and
for the engine's `rescanSlices` over a committed all-zero recording. -/
theorem c7_silence_no_slices :
    (∀ (n : ℕ) (th : F) (m : ℤ), F.lt (F.finite 0) th = true →
      detectSlices (List.replicate n (F.finite 0)) th m = []) ∧
    (∀ (st : AlienState) (th t : F), F.lt (F.finite 0) th = true →
      (∀ i, st.loopBuffer i = F.finite 0) → 0 < st.recordedLength →
      (rescanSlices st th t).slices = []) := by
  have hdetect : ∀ (n : ℕ) (th : F) (m : ℤ), F.lt (F.finite 0) th = true →
      detectSlices (List.replicate n (F.finite 0)) th m = [] := by
    intro n th m h
    unfold detectSlices
    rw [show (List.replicate n (F.finite 0)).enum
        = List.enumFrom 0 (List.replicate n (F.finite 0)) from rfl]
    rw [scanFold_zeros false th (fun _ => m) h n 0]
    rfl
  refine ⟨hdetect, ?_⟩
  intro st th t h hbuf hlen
  unfold rescanSlices
  rw [if_neg (by omega)]
  simp only []
  have hpre : bufferPrefix st.loopBuffer st.recordedLength
      = List.replicate st.recordedLength.toNat (F.finite 0) := by
    rw [List.eq_replicate_iff]
    constructor
    · simp [bufferPrefix]
    · intro b hb
      rw [bufferPrefix, List.mem_map] at hb
      obtain ⟨i, _, rfl⟩ := hb
      exact hbuf i
  rw [hpre, hdetect st.recordedLength.toNat th _ h]

/-- Witness for `c7_silence_no_slices`: a concrete run of both parts. -/
theorem c7_witness :
    F.lt (F.finite 0) (F.finite 1) = true ∧
    detectSlices (List.replicate 5 (F.finite 0)) (F.finite 1) 2 = [] ∧
    (rescanSlices { traceA0 with recordedLength := 5 } (F.finite 1) (F.finite 1)).slices = [] := by
  refine ⟨by decide, c7_silence_no_slices.1 5 (F.finite 1) 2 (by decide), ?_⟩
  exact c7_silence_no_slices.2 { traceA0 with recordedLength := 5 } (F.finite 1) (F.finite 1)
    (by decide) (fun i => rfl) (by decide)

theorem enumFrom_append_eq (l1 l2 : List F) :
    ∀ n : ℕ, List.enumFrom n (l1 ++ l2)
      = List.enumFrom n l1 ++ List.enumFrom (n + l1.length) l2 := by
  induction l1 with
  | nil => intro n; simp
  | cons x xs ih =>
    intro n
    simp only [List.cons_append, List.enumFrom_cons, List.length_cons, ih (n + 1),
      show n + (xs.length + 1) = n + 1 + xs.length from by omega]

theorem scanFold_fixed (req : Bool) (th : F) (m : ℤ) (x : F)
    (S : List Slice × F)
    (hfix : ∀ p : ℤ, sliceScanStep req th m p x S = S) :
    ∀ (k n : ℕ), (List.enumFrom n (List.replicate k x)).foldl
      (fun st p => sliceScanStep req th m (p.1 : ℤ) p.2 st) S = S := by
  intro k
  induction k with
  | zero => intro n; rfl
  | succ k ih =>
    intro n
    rw [List.replicate_succ, List.enumFrom_cons, List.foldl_cons, hfix (n : ℤ)]
    exact ih (n + 1)

theorem scanStep_noCross (req : Bool) (th : F) (m pos : ℤ) (x : F)
    (S : List Slice × F) (h : (F.lt S.2 th && F.le th (F.fabs x)) = false) :
    sliceScanStep req th m pos x S = (peakUpd (F.fabs x) S.1, F.fabs x) := by
  simp only [sliceScanStep, h, Bool.false_eq_true, if_false]

theorem detect_pulse1000 :
    detectSlices pulse1000 (F.finite (1/2)) 10 =
      [{ startSample := 100, endSample := 999, peakAmplitude := F.finite 1,
         active := true }] := by
  have henum : ∀ l : List F, l.enum = List.enumFrom 0 l := fun _ => rfl
  have hlen : pulse1000.length = 1000 := by
    simp [pulse1000]
  unfold detectSlices
  rw [henum, hlen]
  unfold pulse1000
  rw [enumFrom_append_eq, enumFrom_append_eq, List.foldl_append, List.foldl_append]
  simp only [List.length_append, List.length_replicate]
  norm_num
  rw [scanFold_zeros false (F.finite (1/2)) (fun _ => 10) (by decide) 100 0]
  have hrep100 : List.replicate 100 (F.finite 1)
      = F.finite 1 :: List.replicate 99 (F.finite 1) := rfl
  rw [hrep100, List.enumFrom_cons, List.foldl_cons]
  have hstep1 : sliceScanStep false (F.finite (1/2)) 10 ((100 : ℕ) : ℤ) (F.finite 1)
      ([], F.finite 0)
      = ([{ startSample := 100, endSample := 0, peakAmplitude := F.finite 1,
            active := true }], F.finite 1) := by decide
  rw [hstep1]
  have hfix1 : ∀ p : ℤ, sliceScanStep false (F.finite (1/2)) 10 p (F.finite 1)
      ([{ startSample := 100, endSample := 0, peakAmplitude := F.finite 1,
          active := true }], F.finite 1)
      = ([{ startSample := 100, endSample := 0, peakAmplitude := F.finite 1,
            active := true }], F.finite 1) := by
    intro p
    rw [scanStep_noCross _ _ _ _ _ _ (by decide)]
    decide
  rw [scanFold_fixed false (F.finite (1/2)) 10 (F.finite 1) _ hfix1 99 101]
  have hrep800 : List.replicate 800 (F.finite 0)
      = F.finite 0 :: List.replicate 799 (F.finite 0) := rfl
  rw [hrep800, List.enumFrom_cons, List.foldl_cons]
  have hstep2 : sliceScanStep false (F.finite (1/2)) 10 ((200 : ℕ) : ℤ) (F.finite 0)
      ([{ startSample := 100, endSample := 0, peakAmplitude := F.finite 1,
          active := true }], F.finite 1)
      = ([{ startSample := 100, endSample := 0, peakAmplitude := F.finite 1,
            active := true }], F.finite 0) := by decide
  rw [hstep2]
  have hfix2 : ∀ p : ℤ, sliceScanStep false (F.finite (1/2)) 10 p (F.finite 0)
      ([{ startSample := 100, endSample := 0, peakAmplitude := F.finite 1,
          active := true }], F.finite 0)
      = ([{ startSample := 100, endSample := 0, peakAmplitude := F.finite 1,
            active := true }], F.finite 0) := by
    intro p
    rw [scanStep_noCross _ _ _ _ _ _ (by decide)]
    decide
  rw [scanFold_fixed false (F.finite (1/2)) 10 (F.finite 0) _ hfix2 799 201]
  decide

/-- C2 counterexample: the detector run the claim describes (all-zero
buffer of length 1000 with samples 100..199 equal to 1, threshold 0.5,
`minSliceSamples = 10`) does produce exactly one slice starting at 100,
but that slice's `endSample` is `999` (the scan closes the still-open
slice at `recordedLength - 1`), not `199` as the claim states. -/
theorem c2_single_pulse_counterexample :
    (detectSlices pulse1000 (F.finite (1/2)) 10).length = 1 ∧
    ((detectSlices pulse1000 (F.finite (1/2)) 10).headD default).startSample = 100 ∧
    ((detectSlices pulse1000 (F.finite (1/2)) 10).headD default).endSample ≠ 199 := by
  rw [detect_pulse1000]
  refine ⟨rfl, rfl, ?_⟩
  decide

/-- C2 (amended): the run produces exactly one slice with
`startSample = 100` and `endSample = 999` (and peak amplitude 1): the
slice extends from its onset to the end of the recording because no
second onset ever closes it. -/
theorem c2_single_pulse_amended :
    detectSlices pulse1000 (F.finite (1/2)) 10 =
      [{ startSample := 100, endSample := 999, peakAmplitude := F.finite 1,
         active := true }] :=
  detect_pulse1000

theorem clamp_in_range (v : F) :
    inClampRange (F.clamp v (F.finite (-10)) (F.finite 10)) := by
  cases v with
  | finite q =>
    simp only [F.clamp, F.cppMin, F.cppMax]
    split_ifs with h1 h2 h3
    · exact ⟨10, rfl, by norm_num, by norm_num⟩
    · exact ⟨-10, rfl, by norm_num, by norm_num⟩
    · simp only [F.lt, decide_eq_true_eq] at h1 h3
      exact ⟨q, rfl, by linarith, by linarith⟩
    · exact ⟨-10, rfl, by norm_num, by norm_num⟩
  | pinf => exact ⟨10, by decide, by norm_num, by norm_num⟩
  | ninf => exact ⟨-10, by decide, by norm_num, by norm_num⟩
  | nan => exact ⟨-10, by decide, by norm_num, by norm_num⟩

theorem processSample_output_in_range (ops : DspOps) (st : AlienState) (x : F) :
    inClampRange (processSample ops st x).2.1 ∧
    inClampRange (processSample ops st x).2.2 :=
  ⟨clamp_in_range _, clamp_in_range _⟩

theorem process_outputs_forall (ops : DspOps) :
    ∀ (inputs : List F) (st : AlienState),
    ((process ops st inputs).2.1).Forall inClampRange ∧
    ((process ops st inputs).2.2).Forall inClampRange := by
  intro inputs
  induction inputs with
  | nil => intro st; exact ⟨trivial, trivial⟩
  | cons x xs ih =>
    intro st
    simp only [process]
    rw [List.forall_cons, List.forall_cons]
    exact ⟨⟨(processSample_output_in_range ops st x).1, (ih _).1⟩,
           ⟨(processSample_output_in_range ops st x).2, (ih _).2⟩⟩

/-- C1: for every state (hence any parameter values the public setters can
reach), every interpretation of the transcendental library functions, and
every input block (finite or non-finite samples alike), both output
channels of the render call consist solely of finite samples inside the
clamp range `[-10, 10]` — the final `clamp(final, -10, 10)` guarantees
this even when the value being clamped is `NaN` or an infinity, by the
C++ `std::min`/`std::max` comparison semantics. -/
theorem c1_render_output_bounded (ops : DspOps) (st : AlienState)
    (inputs : List F) :
    ((process ops st inputs).2.1).Forall inClampRange ∧
    ((process ops st inputs).2.2).Forall inClampRange :=
  process_outputs_forall ops inputs st

/-- C4 counterexample: in the reachable state `traceC3` (a committed
recording consisting of one NaN sample), the next render iteration's
playback block — which takes the single-voice path — assigns the
non-finite interpolated sample `nan` to *both* loop accumulators instead
of contributing 0: the single-voice read has no finiteness guard. -/
theorem c4_single_voice_no_guard_counterexample :
    (playbackStep testOps (scanSampleStep (recordSampleStep testOps traceC3
      (F.finite 0)))).2.1 = F.nan ∧
    (playbackStep testOps (scanSampleStep (recordSampleStep testOps traceC3
      (F.finite 0)))).2.2 = F.nan ∧
    F.nan.isFinite = false ∧ F.nan ≠ F.finite 0 := by
  refine ⟨by decide, by decide, rfl, by decide⟩

/-- C4 (amended): the multi-voice path guards every voice's interpolated
sample — a non-finite sample contributes exactly `(0, 0)` to the
accumulators — but the single-voice path performs no such check: whenever
a recording exists, both of its accumulators are exactly the raw
interpolated sample, finite or not. -/
theorem c4_nonfinite_guard_multi_voice_only :
    (∀ (v : ℕ) (s : F), s.isFinite = false →
      voiceContribution v s = (F.finite 0, F.finite 0)) ∧
    (∀ st : AlienState, 0 < st.recordedLength →
      ∃ pos : ℤ, ∃ phase : F,
        (singleVoicePlayback st).2.1
          = (readInterp st.loopBuffer st.recordedLength pos phase).2 ∧
        (singleVoicePlayback st).2.2
          = (readInterp st.loopBuffer st.recordedLength pos phase).2) := by
  constructor
  · intro v s h
    simp [voiceContribution, h]
  · intro st h
    unfold singleVoicePlayback
    rw [if_pos h]
    exact ⟨_, _, rfl, rfl⟩

/-- Witness for `c4_nonfinite_guard_multi_voice_only` at concrete
inputs. -/
theorem c4_witness :
    F.nan.isFinite = false ∧
    voiceContribution 0 F.nan = (F.finite 0, F.finite 0) ∧
    (0 : ℤ) < traceC3.recordedLength ∧
    (∃ pos : ℤ, ∃ phase : F,
      (singleVoicePlayback traceC3).2.1
        = (readInterp traceC3.loopBuffer traceC3.recordedLength pos phase).2 ∧
      (singleVoicePlayback traceC3).2.2
        = (readInterp traceC3.loopBuffer traceC3.recordedLength pos phase).2) :=
  ⟨rfl, c4_nonfinite_guard_multi_voice_only.1 0 F.nan rfl, by decide,
   c4_nonfinite_guard_multi_voice_only.2 traceC3 (by decide)⟩

theorem intDraw_bounds (size : ℤ) (rng : Rng) (h : 0 < size) :
    0 ≤ (intDraw 0 (size - 1) rng).1 ∧ (intDraw 0 (size - 1) rng).1 < size := by
  simp only [intDraw]
  have hs : size - 1 - 0 + 1 = size := by ring
  rw [hs]
  constructor
  · have := Int.emod_nonneg ((rng.ints.headD 0 : ℤ)) (by omega : size ≠ 0)
    omega
  · have := Int.emod_lt_of_pos ((rng.ints.headD 0 : ℤ)) h
    omega

theorem drawValidLoop_bounds (valid : ℤ → Bool) (size : ℤ) (h : 0 < size) :
    ∀ (fuel : ℕ) (t : ℤ) (rng : Rng), 0 ≤ t → t < size →
    0 ≤ (drawValidLoop valid size fuel t rng).1 ∧
    (drawValidLoop valid size fuel t rng).1 < size := by
  intro fuel
  induction fuel with
  | zero => intro t rng h0 h1; exact ⟨h0, h1⟩
  | succ fuel ih =>
    intro t rng h0 h1
    simp only [drawValidLoop]
    split
    · exact ⟨h0, h1⟩
    · exact ih _ _ (intDraw_bounds size rng h).1 (intDraw_bounds size rng h).2

theorem foldl_voices_preserve {α β : Type} (P : Voice → Prop)
    (proj : β → List Voice) (step : β → α → β)
    (hstep : ∀ acc i, (∀ v ∈ proj acc, P v) → ∀ v ∈ proj (step acc i), P v) :
    ∀ (l : List α) (init : β), (∀ v ∈ proj init, P v) →
    ∀ v ∈ proj (l.foldl step init), P v := by
  intro l
  induction l with
  | nil => intro init h; exact h
  | cons a as ih =>
    intro init h
    rw [List.foldl_cons]
    exact ih _ (hstep init a h)

theorem mem_set_cases {l : List Voice} {i : ℕ} {x v : Voice}
    (hv : v ∈ l.set i x) : v ∈ l ∨ v = x :=
  List.mem_or_eq_of_mem_set hv

theorem getD_prop (P : Voice → Prop) (l : List Voice) (i : ℕ)
    (h : ∀ v ∈ l, P v) (hd : P default) : P (l.getD i default) := by
  rw [List.getD_eq_getElem?_getD]
  cases hg : l[i]? with
  | none => simpa [hg] using hd
  | some v =>
    have : v ∈ l := List.mem_iff_getElem?.mpr ⟨i, hg⟩
    simpa [hg] using h v this

theorem headD_prop (P : Voice → Prop) (l : List Voice)
    (h : ∀ v ∈ l, P v) (hd : P default) : P (l.headD default) := by
  cases l with
  | nil => simpa using hd
  | cons a as => simpa using h a (List.mem_cons_self _ _)

theorem redistributeVoices_frame (st : AlienState) :
    (redistributeVoices st).slices = st.slices ∧
    (redistributeVoices st).currentSliceIndex = st.currentSliceIndex ∧
    (redistributeVoices st).numVoices = st.numVoices ∧
    (redistributeVoices st).recordedLength = st.recordedLength ∧
    (redistributeVoices st).isRecording = st.isRecording := by
  unfold redistributeVoices
  split
  · exact ⟨rfl, rfl, rfl, rfl, rfl⟩
  · exact ⟨rfl, rfl, rfl, rfl, rfl⟩

theorem redistributeVoices_voices_nonneg (st : AlienState)
    (h : ∀ v ∈ st.voices, 0 ≤ v.sliceIndex) :
    ∀ v ∈ (redistributeVoices st).voices, 0 ≤ v.sliceIndex := by
  unfold redistributeVoices
  split
  · exact h
  · rename_i hguard
    have hsize : (0 : ℤ) < st.slices.length := by
      simp only [Bool.or_eq_true, decide_eq_true_eq, not_or] at hguard
      have hne : st.slices ≠ [] := by
        intro hnil
        exact hguard.1.1 (by rw [hnil]; rfl)
      have := List.length_pos.mpr hne
      omega
    refine foldl_voices_preserve (fun v => 0 ≤ v.sliceIndex) Prod.fst _ ?_ _ _ h
    intro acc i hacc v hv
    simp only [] at hv
    split at hv
    · rcases mem_set_cases hv with hmem | rfl
      · exact hacc v hmem
      · have hd := intDraw_bounds (st.slices.length : ℤ) acc.2 hsize
        have hr := drawValidLoop_bounds (validSliceR st.slices st.recordedLength)
          (st.slices.length : ℤ) hsize 20
          (intDraw 0 ((st.slices.length : ℤ) - 1) acc.2).1
          (intDraw 0 ((st.slices.length : ℤ) - 1) acc.2).2 hd.1 hd.2
        simpa using hr.1
    · exact hacc v hv

theorem resizeVoices_nonneg (l : List Voice) (n : ℕ)
    (h : ∀ v ∈ l, 0 ≤ v.sliceIndex) :
    ∀ v ∈ resizeVoices l n, 0 ≤ v.sliceIndex := by
  intro v hv
  rw [resizeVoices, List.mem_append] at hv
  rcases hv with hv | hv
  · exact h v (List.mem_of_mem_take hv)
  · have := List.eq_of_mem_replicate hv
    subst this
    exact le_refl 0

theorem setPolyVoices_frame (st : AlienState) (n : ℤ) :
    (setPolyVoices st n).slices = st.slices ∧
    (setPolyVoices st n).currentSliceIndex = st.currentSliceIndex ∧
    (setPolyVoices st n).recordedLength = st.recordedLength ∧
    (setPolyVoices st n).isRecording = st.isRecording := by
  simp only [setPolyVoices]
  split
  · exact ⟨rfl, rfl, rfl, rfl⟩
  · split
    · exact ⟨rfl, rfl, rfl, rfl⟩
    · exact ⟨rfl, rfl, rfl, rfl⟩

theorem setPolyVoices_voices_nonneg (st : AlienState) (n : ℤ)
    (h0 : 0 ≤ st.currentSliceIndex)
    (h : ∀ v ∈ st.voices, 0 ≤ v.sliceIndex) :
    ∀ v ∈ (setPolyVoices st n).voices, 0 ≤ v.sliceIndex := by
  simp only [setPolyVoices]
  split
  · exact h
  · split
    · rename_i hcond
      have hsize : (0 : ℤ) < st.slices.length := by
        have hne : st.slices ≠ [] := by
          intro hnil
          exact hcond.1 (by rw [hnil]; rfl)
        have := List.length_pos.mpr hne
        omega
      refine foldl_voices_preserve (fun v => 0 ≤ v.sliceIndex) Prod.fst _ ?_ _ _
        (resizeVoices_nonneg _ _ h)
      intro acc i hacc v hv
      simp only [] at hv
      split at hv
      · rcases mem_set_cases hv with hmem | rfl
        · exact hacc v hmem
        · simpa using h0
      · rcases mem_set_cases hv with hmem | rfl
        · exact hacc v hmem
        · simp only []
          split
          · have hd := intDraw_bounds (st.slices.length : ℤ) acc.2 hsize
            have hr := drawValidLoop_bounds (validSliceP st.slices st.recordedLength)
              (st.slices.length : ℤ) hsize 20
              (intDraw 0 ((st.slices.length : ℤ) - 1) acc.2).1
              (intDraw 0 ((st.slices.length : ℤ) - 1) acc.2).2 hd.1 hd.2
            exact hr.1
          · exact h0
    · intro v hv
      rw [List.mem_map] at hv
      obtain ⟨w, _, rfl⟩ := hv
      simpa using h0

theorem rescanSlices_voices (st : AlienState) (th t : F) :
    (rescanSlices st th t).voices = st.voices := by
  unfold rescanSlices
  split
  · rfl
  · rfl

theorem rescanSlices_csi_nonneg (st : AlienState) (th t : F)
    (h : 0 ≤ st.currentSliceIndex) :
    0 ≤ (rescanSlices st th t).currentSliceIndex := by
  unfold rescanSlices
  split
  · exact h
  · dsimp only
    split
    · split
      · omega
      · rename_i hempty
        have hne : (detectSlices (bufferPrefix st.loopBuffer st.recordedLength) th
            (F.toInt (F.mul t st.sampleRate))) ≠ [] := by
          intro hnil
          exact hempty (by rw [hnil]; rfl)
        have := List.length_pos.mpr hne
        omega
    · exact h

theorem rescanSlices_inRange (st : AlienState) (th t : F)
    (h0 : 0 ≤ st.currentSliceIndex) (hlen : 0 < st.recordedLength) :
    CsiInRange (rescanSlices st th t) := by
  unfold rescanSlices
  rw [if_neg (by omega)]
  unfold CsiInRange
  dsimp only
  split
  · split
    · rename_i hempty
      left
      rw [List.isEmpty_eq_true] at hempty
      exact ⟨hempty, rfl⟩
    · rename_i hempty
      right
      have hne : (detectSlices (bufferPrefix st.loopBuffer st.recordedLength) th
          (F.toInt (F.mul t st.sampleRate))) ≠ [] := by
        intro hnil
        exact hempty (by rw [hnil]; rfl)
      have := List.length_pos.mpr hne
      omega
  · rename_i hge
    right
    push_neg at hge
    exact ⟨h0, hge⟩

theorem CsiInRange_congr (st st' : AlienState) (hs : st'.slices = st.slices)
    (hc : st'.currentSliceIndex = st.currentSliceIndex)
    (h : CsiInRange st) : CsiInRange st' := by
  unfold CsiInRange at *
  rw [hs, hc]
  exact h

theorem IndexesNonneg_congr (st st' : AlienState)
    (hv : st'.voices = st.voices)
    (hc : st'.currentSliceIndex = st.currentSliceIndex)
    (h : IndexesNonneg st) : IndexesNonneg st' := by
  unfold IndexesNonneg at *
  rw [hv, hc]
  exact h

theorem redistribute_invariants (st : AlienState) :
    (IndexesNonneg st → IndexesNonneg (redistributeVoices st)) ∧
    (CsiInRange st → CsiInRange (redistributeVoices st)) := by
  constructor
  · intro h
    exact ⟨(redistributeVoices_frame st).2.1 ▸ h.1,
      redistributeVoices_voices_nonneg st h.2⟩
  · intro h
    exact CsiInRange_congr st _ (redistributeVoices_frame st).1
      (redistributeVoices_frame st).2.1 h

theorem recordSampleStep_frame (ops : DspOps) (st : AlienState) (x : F) :
    (recordSampleStep ops st x).currentSliceIndex = st.currentSliceIndex ∧
    (recordSampleStep ops st x).voices = st.voices ∧
    (recordSampleStep ops st x).slices = st.slices := by
  unfold recordSampleStep
  split
  · exact ⟨rfl, rfl, rfl⟩
  · exact ⟨rfl, rfl, rfl⟩

theorem scanSampleStep_nonneg (st : AlienState) (h : IndexesNonneg st) :
    IndexesNonneg (scanSampleStep st) := by
  unfold scanSampleStep
  dsimp only
  split
  · split
    · split
      · split
        · constructor
          · exact le_max_left 0 _
          · intro v hv
            simp only [] at hv
            rcases mem_set_cases hv with hmem | rfl
            · exact h.2 v hmem
            · exact le_max_left 0 _
        · exact ⟨le_max_left 0 _, h.2⟩
      · exact h
    · exact ⟨h.1, h.2⟩
  · exact h

theorem singleVoicePlayback_frame (st : AlienState) :
    (singleVoicePlayback st).1.currentSliceIndex = st.currentSliceIndex ∧
    (singleVoicePlayback st).1.voices = st.voices := by
  unfold singleVoicePlayback
  dsimp only
  split
  · exact ⟨rfl, rfl⟩
  · exact ⟨rfl, rfl⟩

theorem voiceSampleStep_sliceIndex (st : AlienState) (v : ℕ) (voice : Voice) :
    (voiceSampleStep st v voice).1.sliceIndex = voice.sliceIndex := by
  unfold voiceSampleStep
  dsimp only
  split
  · rfl
  · rfl

theorem multiVoicePlayback_nonneg (ops : DspOps) (st : AlienState)
    (h : IndexesNonneg st) : IndexesNonneg (multiVoicePlayback ops st).1 := by
  have hvoices : ∀ v ∈ ((List.range st.numVoices.toNat).foldl
      (fun (acc : List Voice × F × F) v =>
        let r := voiceSampleStep st v (acc.1.getD v default)
        (acc.1.set v r.1, F.add acc.2.1 r.2.1, F.add acc.2.2 r.2.2))
      (st.voices, F.finite 0, F.finite 0)).1, 0 ≤ v.sliceIndex := by
    refine foldl_voices_preserve (fun v => 0 ≤ v.sliceIndex) Prod.fst _ ?_ _ _ h.2
    intro acc i hacc v hv
    simp only [] at hv
    rcases mem_set_cases hv with hmem | rfl
    · exact hacc v hmem
    · rw [voiceSampleStep_sliceIndex]
      exact getD_prop (fun v => 0 ≤ v.sliceIndex) acc.1 i hacc (le_refl 0)
  unfold multiVoicePlayback
  dsimp only
  split
  · constructor
    · exact headD_prop (fun v => 0 ≤ v.sliceIndex) _ hvoices (le_refl 0)
    · exact hvoices
  · exact ⟨h.1, hvoices⟩

theorem playbackStep_nonneg (ops : DspOps) (st : AlienState)
    (h : IndexesNonneg st) : IndexesNonneg (playbackStep ops st).1 := by
  unfold playbackStep
  split
  · split
    · exact IndexesNonneg_congr st _ (singleVoicePlayback_frame st).2
        (singleVoicePlayback_frame st).1 h
    · exact multiVoicePlayback_nonneg ops st h
  · exact h

theorem processSampleCore_state_proj (ops : DspOps) (st : AlienState) (x : F) :
    (processSampleCore ops st x).1.currentSliceIndex
      = (playbackStep ops (scanSampleStep (recordSampleStep ops st x))).1.currentSliceIndex ∧
    (processSampleCore ops st x).1.voices
      = (playbackStep ops (scanSampleStep (recordSampleStep ops st x))).1.voices :=
  ⟨rfl, rfl⟩

theorem processSample_state_eq (ops : DspOps) (st : AlienState) (x : F) :
    (processSample ops st x).1 = (processSampleCore ops st x).1 := rfl

theorem processSample_nonneg (ops : DspOps) (st : AlienState) (x : F)
    (h : IndexesNonneg st) : IndexesNonneg (processSample ops st x).1 := by
  rw [processSample_state_eq]
  have hrec : IndexesNonneg (recordSampleStep ops st x) :=
    IndexesNonneg_congr st _ (recordSampleStep_frame ops st x).2.1
      (recordSampleStep_frame ops st x).1 h
  have hscan := scanSampleStep_nonneg _ hrec
  have hpb := playbackStep_nonneg ops _ hscan
  exact IndexesNonneg_congr _ _ (processSampleCore_state_proj ops st x).2
    (processSampleCore_state_proj ops st x).1 hpb

theorem process_nonneg (ops : DspOps) :
    ∀ (inputs : List F) (st : AlienState), IndexesNonneg st →
    IndexesNonneg (process ops st inputs).1 := by
  intro inputs
  induction inputs with
  | nil => intro st h; exact h
  | cons x xs ih =>
    intro st h
    simp only [process]
    exact ih _ (processSample_nonneg ops st x h)

theorem setRecording_invariants (ops : DspOps) (st : AlienState) (rec : Bool)
    (h : IndexesNonneg st) :
    IndexesNonneg (setRecording ops st rec) ∧
    (CsiInRange st → CsiInRange (setRecording ops st rec)) := by
  unfold setRecording
  split
  · exact ⟨⟨h.1, h.2⟩, fun hc => hc⟩
  · split
    · dsimp only
      split
      · rename_i hnum
        have hbase : IndexesNonneg ({ st with
            loopBuffer := st.tempBuffer
            slices := (finalizeSlices
              (F.toInt (F.mul (getMinSliceTime ops st.minSliceTime) st.sampleRate))
              st.tempRecordedLength st.tempSlicesRev).reverse
            recordedLength := st.tempRecordedLength
            playbackPosition := 0
            playbackPhase := F.finite 0
            currentSliceIndex := 0
            lastAmplitude := F.finite 0
            voices := st.voices.map fun _ =>
              { sliceIndex := 0, playbackPosition := 0
                playbackPhase := F.finite 0, speedMultiplier := F.finite 1 }
            isRecording := false }) := by
          constructor
          · exact le_refl 0
          · intro v hv
            rw [List.mem_map] at hv
            obtain ⟨w, _, rfl⟩ := hv
            exact le_refl 0
        constructor
        · exact (redistribute_invariants _).1 hbase
        · intro _
          refine (redistribute_invariants _).2 ?_
          unfold CsiInRange
          dsimp only
          cases hcase : (finalizeSlices
              (F.toInt (F.mul (getMinSliceTime ops st.minSliceTime) st.sampleRate))
              st.tempRecordedLength st.tempSlicesRev).reverse with
          | nil => exact Or.inl ⟨rfl, rfl⟩
          | cons a as =>
            right
            simp only [List.length_cons]
            constructor
            · exact le_refl 0
            · have : (0:ℤ) < (as.length + 1 : ℕ) := by positivity
              omega
      · constructor
        · constructor
          · exact le_refl 0
          · intro v hv
            rw [List.mem_map] at hv
            obtain ⟨w, _, rfl⟩ := hv
            exact le_refl 0
        · intro _
          unfold CsiInRange
          dsimp only
          cases hcase : (finalizeSlices
              (F.toInt (F.mul (getMinSliceTime ops st.minSliceTime) st.sampleRate))
              st.tempRecordedLength st.tempSlicesRev).reverse with
          | nil => exact Or.inl ⟨rfl, rfl⟩
          | cons a as =>
            right
            simp only [List.length_cons]
            constructor
            · exact le_refl 0
            · have : (0:ℤ) < (as.length + 1 : ℕ) := by positivity
              omega
    · exact ⟨⟨h.1, h.2⟩, fun hc => hc⟩

theorem setMinSliceTime_invariants (ops : DspOps) (st : AlienState) (time : F)
    (h : IndexesNonneg st) :
    IndexesNonneg (setMinSliceTime ops st time) ∧
    (CsiInRange st → CsiInRange (setMinSliceTime ops st time)) := by
  unfold setMinSliceTime
  dsimp only
  split
  · rename_i hcond
    have hmid : IndexesNonneg (rescanSlices { st with
        minSliceTime := F.clamp time (F.finite 0) (F.finite 1) } (F.finite (1/2))
        (getMinSliceTime ops (F.clamp time (F.finite 0) (F.finite 1)))) := by
      constructor
      · exact rescanSlices_csi_nonneg _ _ _ h.1
      · rw [rescanSlices_voices]
        exact h.2
    have hrange : CsiInRange (rescanSlices { st with
        minSliceTime := F.clamp time (F.finite 0) (F.finite 1) } (F.finite (1/2))
        (getMinSliceTime ops (F.clamp time (F.finite 0) (F.finite 1)))) :=
      rescanSlices_inRange _ _ _ h.1 hcond.2.1
    constructor
    · exact IndexesNonneg_congr _ _ rfl rfl ((redistribute_invariants _).1 hmid)
    · intro _
      exact CsiInRange_congr _ _ rfl rfl ((redistribute_invariants _).2 hrange)
  · exact ⟨⟨h.1, h.2⟩, fun hc => hc⟩

theorem setScan_invariants (st : AlienState) (scan : F)
    (h : IndexesNonneg st) :
    IndexesNonneg (setScan st scan) ∧
    (CsiInRange st → CsiInRange (setScan st scan)) := by
  unfold setScan
  dsimp only
  split
  · have hmid : IndexesNonneg ({ st with
        scanValue := F.clamp scan (F.finite 0) (F.finite 1) }) := ⟨h.1, h.2⟩
    constructor
    · exact IndexesNonneg_congr _ _ rfl rfl ((redistribute_invariants _).1 hmid)
    · intro hc
      have hc1 : CsiInRange ({ st with
          scanValue := F.clamp scan (F.finite 0) (F.finite 1) }) :=
        CsiInRange_congr st _ rfl rfl hc
      exact CsiInRange_congr _ _ rfl rfl ((redistribute_invariants _).2 hc1)
  · exact ⟨⟨h.1, h.2⟩, fun hc => hc⟩

theorem engineClear_invariants (st : AlienState) :
    IndexesNonneg (engineClear st) ∧ CsiInRange (engineClear st) := by
  constructor
  · exact ⟨le_refl 0, by intro v hv; simp [engineClear] at hv⟩
  · exact Or.inl ⟨rfl, rfl⟩

theorem foldl_sets_all {P : Voice → Prop}
    (step : List Voice × Rng → ℕ → List Voice × Rng)
    (hstep : ∀ acc i, ∃ w, P w ∧ (step acc i).1 = acc.1.set i w) :
    ∀ (l : List ℕ) (init : List Voice × Rng),
    (∀ j, j ∉ l → ∀ v, init.1[j]? = some v → P v) →
    ∀ (j : ℕ) (v : Voice), ((l.foldl step init).1)[j]? = some v → P v := by
  intro l
  induction l with
  | nil =>
    intro init h j v hv
    exact h j (List.not_mem_nil j) v hv
  | cons i l' ih =>
    intro init h j v hv
    rw [List.foldl_cons] at hv
    refine ih (step init i) ?_ j v hv
    intro j' hj' w' hw'
    obtain ⟨w, hPw, heq⟩ := hstep init i
    rw [heq] at hw'
    by_cases hji : j' = i
    · subst hji
      rw [List.getElem?_set_self'] at hw'
      cases horig : init.1[j']? with
      | none => rw [horig] at hw'; simp at hw'
      | some u =>
        rw [horig] at hw'
        simp at hw'
        subst hw'
        exact hPw
    · rw [List.getElem?_set_ne (fun hh => hji hh.symm)] at hw'
      refine h j' ?_ w' hw'
      intro hmem
      rcases List.mem_cons.mp hmem with h0 | h0
      · exact hji h0
      · exact hj' h0

theorem resizeVoices_length (l : List Voice) (n : ℕ) :
    (resizeVoices l n).length = n := by
  simp only [resizeVoices, List.length_append, List.length_take,
    List.length_replicate]
  omega

theorem foldl_sets_length (step : List Voice × Rng → ℕ → List Voice × Rng)
    (hstep : ∀ acc i, ∃ w, (step acc i).1 = acc.1.set i w) :
    ∀ (l : List ℕ) (init : List Voice × Rng),
    ((l.foldl step init).1).length = init.1.length := by
  intro l
  induction l with
  | nil => intro init; rfl
  | cons i l' ih =>
    intro init
    rw [List.foldl_cons, ih]
    obtain ⟨w, heq⟩ := hstep init i
    rw [heq, List.length_set]

/-!
## Voice reassignment and the current-slice invariant (claims C3, C10)
-/

theorem slices_getD_mem (l : List Slice) (i : ℕ) (h : i < l.length) :
    l.getD i default ∈ l := by
  rw [List.getD_eq_getElem?_getD, List.getElem?_eq_getElem h]
  exact List.getElem_mem h

/-- C3 (amended): resizing the pool from 1 to 8 voices with a non-empty
committed slice list, a current slice index in range, and every committed
slice active with `startSample < recordedLength`, yields 8 voices each
bound to an in-range slice that is active and starts inside the
recording.  (The fallback after 20 failed draws is voice 0's slice, i.e.
`currentSliceIndex`, which the hypotheses place in range; the unamended
claim is refuted by `c3_stale_voice_counterexample`, where that index is
itself stale and out of range.) -/
theorem c3_voice_reassignment_amended (st : AlienState)
    (hnum : st.numVoices = 1) (hne : st.slices ≠ [])
    (hcsi0 : 0 ≤ st.currentSliceIndex)
    (hcsi1 : st.currentSliceIndex < (st.slices.length : ℤ))
    (hsl : ∀ s ∈ st.slices, s.active = true ∧
      s.startSample < st.recordedLength) :
    (setPolyVoices st 8).numVoices = 8 ∧
    (setPolyVoices st 8).voices.length = 8 ∧
    ∀ v ∈ (setPolyVoices st 8).voices,
      0 ≤ v.sliceIndex ∧ v.sliceIndex < (st.slices.length : ℤ) ∧
      (st.slices.getD v.sliceIndex.toNat default).active = true ∧
      (st.slices.getD v.sliceIndex.toNat default).startSample <
        st.recordedLength := by
  have hlen : (0:ℤ) < st.slices.length := by
    have := List.length_pos.mpr hne
    omega
  have hm0 : st.slices.getD st.currentSliceIndex.toNat default ∈ st.slices :=
    slices_getD_mem _ _ (by omega)
  simp only [setPolyVoices]
  have h8 : (max (1:ℤ) (min 8 8)) = 8 := by norm_num
  simp only [h8]
  rw [if_neg (by omega : ¬ (8:ℤ) = st.numVoices)]
  rw [if_pos ⟨(fun hh => hne (List.isEmpty_eq_true.mp hh)), by norm_num⟩]
  refine ⟨rfl, ?_, ?_⟩
  · rw [foldl_sets_length]
    · rw [resizeVoices_length]; omega
    · intro acc i
      dsimp only
      split
      · next hi => subst hi; exact ⟨_, rfl⟩
      · exact ⟨_, rfl⟩
  · intro v hv
    dsimp only at hv
    obtain ⟨j, hj⟩ := List.mem_iff_getElem?.mp hv
    refine @foldl_sets_all (fun w => 0 ≤ w.sliceIndex ∧
      w.sliceIndex < (st.slices.length : ℤ) ∧
      (st.slices.getD w.sliceIndex.toNat default).active = true ∧
      (st.slices.getD w.sliceIndex.toNat default).startSample <
        st.recordedLength)
      _ ?_ _ _ ?_ j v hj
    · intro acc i
      dsimp only
      split
      · next hi =>
        subst hi
        exact ⟨_, ⟨hcsi0, hcsi1, (hsl _ hm0).1, (hsl _ hm0).2⟩, rfl⟩
      · refine ⟨_, ?_, rfl⟩
        have hd := intDraw_bounds ((st.slices.length : ℤ)) acc.2 hlen
        have hr := drawValidLoop_bounds (validSliceP st.slices st.recordedLength)
          ((st.slices.length : ℤ)) hlen 20
          (intDraw 0 ((st.slices.length : ℤ) - 1) acc.2).1
          (intDraw 0 ((st.slices.length : ℤ) - 1) acc.2).2 hd.1 hd.2
        dsimp only
        by_cases hv2 : validSliceP st.slices st.recordedLength
            (drawValidLoop (validSliceP st.slices st.recordedLength)
              ((st.slices.length : ℤ)) 20
              (intDraw 0 ((st.slices.length : ℤ) - 1) acc.2).1
              (intDraw 0 ((st.slices.length : ℤ) - 1) acc.2).2).1 = true
        · rw [if_pos hv2]
          simp only [validSliceP, validSliceR, Bool.and_eq_true,
            decide_eq_true_eq] at hv2
          exact ⟨hr.1, hv2.1, hv2.2.1, hv2.2.2⟩
        · rw [if_neg hv2]
          exact ⟨hcsi0, hcsi1, (hsl _ hm0).1, (hsl _ hm0).2⟩
    · intro j' hj' w hw
      exfalso
      apply hj'
      rw [List.mem_range]
      obtain ⟨hlt, -⟩ := List.getElem?_eq_some_iff.mp hw
      rw [resizeVoices_length] at hlt
      omega

/-- Witness for `c3_voice_reassignment_amended` at the reachable state
`traceA4` (three committed slices, one voice, current slice 0). -/
theorem c3_witness :
    traceA4.numVoices = 1 ∧ traceA4.slices ≠ [] ∧
    0 ≤ traceA4.currentSliceIndex ∧
    traceA4.currentSliceIndex < (traceA4.slices.length : ℤ) ∧
    (∀ s ∈ traceA4.slices, s.active = true ∧
      s.startSample < traceA4.recordedLength) ∧
    ((setPolyVoices traceA4 8).numVoices = 8 ∧
     (setPolyVoices traceA4 8).voices.length = 8 ∧
     ∀ v ∈ (setPolyVoices traceA4 8).voices,
       0 ≤ v.sliceIndex ∧ v.sliceIndex < (traceA4.slices.length : ℤ) ∧
       (traceA4.slices.getD v.sliceIndex.toNat default).active = true ∧
       (traceA4.slices.getD v.sliceIndex.toNat default).startSample <
         traceA4.recordedLength) :=
  ⟨by decide, by decide, by decide, by decide, by decide,
   c3_voice_reassignment_amended traceA4 (by decide) (by decide) (by decide)
     (by decide) (by decide)⟩

/-- C3 counterexample: in the reachable state `traceA10` (one slice left
after a shrinking rescan, but a stale `currentSliceIndex`/voice-0 slice
index of 2 mirrored back by a later render call), resizing from 1 to 8
voices leaves voice 0 bound to slice index 2 with only one slice
committed: an out-of-range binding, refuting the unamended claim. -/
theorem c3_stale_voice_counterexample :
    traceA11 = setPolyVoices traceA10 8 ∧
    (traceA10.numVoices = 1 ∧ traceA10.slices.length = 1 ∧
     traceA11.numVoices = 8 ∧
     (traceA11.voices.headD default).sliceIndex = 2 ∧
     ¬((traceA11.voices.headD default).sliceIndex <
        (traceA11.slices.length : ℤ))) :=
  ⟨rfl, by decide⟩

/-- C6 counterexample: in the reachable trace `traceB2 .. traceB6` the
minimum-slice-time knob is lowered mid-recording; the commit in
`traceB6 = setRecording testOps traceB5 false` then uses
`minSliceSamples = 10`, yet the committed list retains a slice of length
4 that the earlier, smaller per-sample minimum admitted — refuting the
claim for the stop-recording commit. -/
theorem c6_mid_recording_counterexample :
    traceB6 = setRecording testOps traceB5 false ∧
    (traceB5.isRecording = true ∧
     F.toInt (F.mul (getMinSliceTime testOps traceB5.minSliceTime)
       traceB5.sampleRate) = 10 ∧
     ∃ s ∈ traceB6.slices, s.endSample - s.startSample + 1 < 10) :=
  ⟨rfl, by decide⟩

/-- C10 (amended): after every public operation the engine's slice
indices (current and per-voice) stay non-negative, and after every
non-render operation `getCurrentSlice` is `0` on an empty committed list
and otherwise in `[0, getNumSlices - 1]`.  The render call itself does
not preserve the range half: `c10_stale_index_counterexample` exhibits a
render that copies a stale voice-0 slice index over
`currentSliceIndex`. -/
theorem c10_current_slice_invariant (ops : DspOps) (st : AlienState)
    (op : EngineOp) (h : IndexesNonneg st) :
    IndexesNonneg (applyOp ops st op) ∧
    (isProcessOp op = false → CsiInRange st → CsiInRange (applyOp ops st op)) := by
  cases op with
  | opSetRecording rec =>
    exact ⟨(setRecording_invariants ops st rec h).1,
      fun _ hc => (setRecording_invariants ops st rec h).2 hc⟩
  | opSetLooping loop =>
    exact ⟨IndexesNonneg_congr st _ rfl rfl h,
      fun _ hc => CsiInRange_congr st _ rfl rfl hc⟩
  | opSetMinSliceTime time =>
    exact ⟨(setMinSliceTime_invariants ops st time h).1,
      fun _ hc => (setMinSliceTime_invariants ops st time h).2 hc⟩
  | opSetScan scan =>
    exact ⟨(setScan_invariants st scan h).1,
      fun _ hc => (setScan_invariants st scan h).2 hc⟩
  | opSetFeedback amount =>
    exact ⟨IndexesNonneg_congr st _ rfl rfl h,
      fun _ hc => CsiInRange_congr st _ rfl rfl hc⟩
  | opSetMix mix =>
    exact ⟨IndexesNonneg_congr st _ rfl rfl h,
      fun _ hc => CsiInRange_congr st _ rfl rfl hc⟩
  | opSetSpeed spd =>
    exact ⟨IndexesNonneg_congr st _ rfl rfl h,
      fun _ hc => CsiInRange_congr st _ rfl rfl hc⟩
  | opSetPolyVoices n =>
    refine ⟨⟨?_, setPolyVoices_voices_nonneg st n h.1 h.2⟩, fun _ hc => ?_⟩
    · show 0 ≤ (setPolyVoices st n).currentSliceIndex
      rw [(setPolyVoices_frame st n).2.1]
      exact h.1
    · exact CsiInRange_congr st _ (setPolyVoices_frame st n).1
        (setPolyVoices_frame st n).2.1 hc
  | opSetEQLow g =>
    exact ⟨IndexesNonneg_congr st _ rfl rfl h,
      fun _ hc => CsiInRange_congr st _ rfl rfl hc⟩
  | opSetEQMid g =>
    exact ⟨IndexesNonneg_congr st _ rfl rfl h,
      fun _ hc => CsiInRange_congr st _ rfl rfl hc⟩
  | opSetEQHigh g =>
    exact ⟨IndexesNonneg_congr st _ rfl rfl h,
      fun _ hc => CsiInRange_congr st _ rfl rfl hc⟩
  | opSetDelayTime l r =>
    exact ⟨IndexesNonneg_congr st _ rfl rfl h,
      fun _ hc => CsiInRange_congr st _ rfl rfl hc⟩
  | opSetDelayFeedback fb =>
    exact ⟨IndexesNonneg_congr st _ rfl rfl h,
      fun _ hc => CsiInRange_congr st _ rfl rfl hc⟩
  | opSetDelayWet w =>
    exact ⟨IndexesNonneg_congr st _ rfl rfl h,
      fun _ hc => CsiInRange_congr st _ rfl rfl hc⟩
  | opSetReverbRoom x =>
    exact ⟨IndexesNonneg_congr st _ rfl rfl h,
      fun _ hc => CsiInRange_congr st _ rfl rfl hc⟩
  | opSetReverbDamping x =>
    exact ⟨IndexesNonneg_congr st _ rfl rfl h,
      fun _ hc => CsiInRange_congr st _ rfl rfl hc⟩
  | opSetReverbDecay x =>
    exact ⟨IndexesNonneg_congr st _ rfl rfl h,
      fun _ hc => CsiInRange_congr st _ rfl rfl hc⟩
  | opSetReverbWet x =>
    exact ⟨IndexesNonneg_congr st _ rfl rfl h,
      fun _ hc => CsiInRange_congr st _ rfl rfl hc⟩
  | opProcess inputs =>
    refine ⟨process_nonneg ops inputs st h, fun hfalse _ => ?_⟩
    simp [isProcessOp] at hfalse
  | opClear =>
    exact ⟨(engineClear_invariants st).1, fun _ _ => (engineClear_invariants st).2⟩

/-- Witness for `c10_current_slice_invariant` at a concrete state and
operation. -/
theorem c10_witness :
    IndexesNonneg traceA0 ∧
    (IndexesNonneg (applyOp testOps traceA0 (.opSetLooping true)) ∧
     (isProcessOp (.opSetLooping true) = false → CsiInRange traceA0 →
       CsiInRange (applyOp testOps traceA0 (.opSetLooping true)))) :=
  ⟨by unfold IndexesNonneg; decide,
   c10_current_slice_invariant testOps traceA0 (.opSetLooping true)
     (by unfold IndexesNonneg; decide)⟩

/-- C10 counterexample: the render operation taking `traceA8` to
`traceA9` leaves `getCurrentSlice = 2` while `getNumSlices = 1` and the
committed list is non-empty — outside `[0, getNumSlices - 1]`, refuting
the claim for the render entry point (the multi-voice block copies the
stale voice-0 slice index into `currentSliceIndex`). -/
theorem c10_stale_index_counterexample :
    traceA9 = applyOp testOps traceA8 (.opProcess [F.finite 0]) ∧
    (getNumSlices traceA9 = 1 ∧ traceA9.slices ≠ [] ∧
     getCurrentSlice traceA9 = 2 ∧
     ¬(getCurrentSlice traceA9 ≤ getNumSlices traceA9 - 1)) :=
  ⟨rfl, by decide⟩

/-!
## Reverb diffusion topology (claim C8)
-/

theorem updBuf_read_ne (b : ℕ → F) (i : ℤ) (v : F) (k : ℕ)
    (h : (k : ℤ) ≠ i) : updBuf b i v k = b k := by
  simp [updBuf, h]

theorem apIdx_next_ne (j : Fin 4) (idx : ℤ) (h0 : 0 ≤ idx)
    (h1 : idx < allpassSizes j) :
    ((((idx + 1) % allpassSizes j).toNat : ℤ)) ≠ idx := by
  have hs : 2 ≤ allpassSizes j := by fin_cases j <;> norm_num [allpassSizes]
  have hm0 : 0 ≤ (idx + 1) % allpassSizes j := Int.emod_nonneg _ (by omega)
  rw [Int.toNat_of_nonneg hm0]
  by_cases hlast : idx + 1 = allpassSizes j
  · rw [hlast, Int.emod_self]; omega
  · rw [Int.emod_eq_of_lt (by omega) (by omega)]; omega

/-- C8 (amended): with in-range allpass indices (which the processor
maintains), the per-sample reverb outputs are: four comb reads summed
and scaled by 0.25, then diffused through all four *shared* allpass
stages in series — the left sample passing each stage first, so the
right sample reads each shared buffer one slot past its index — then the
one-pole highpass.  There is no per-channel 2-stage allpass chain; the
unamended claim is refuted by `c8_shared_allpass_counterexample`. -/
theorem c8_reverb_topology_amended (rv : ReverbProcessor) (inL inR : F)
    (hb : ∀ j : Fin 4, 0 ≤ rv.apIdx j ∧ rv.apIdx j < allpassSizes j) :
    (reverbProcessOne rv inL inR).2.1 = reverbAmendedOutL rv ∧
    (reverbProcessOne rv inL inR).2.2 = reverbAmendedOutR rv := by
  constructor
  · rfl
  · have hfr : (List.finRange 4 : List (Fin 4)) = [0, 1, 2, 3] := by decide
    simp only [reverbProcessOne, allpassLoop, combLoop, hfr, List.foldl_cons,
      List.foldl_nil, processAllpassFilter, processCombFilter,
      reverbAmendedOutR]
    simp only [Function.update_same,
      Function.update_noteq (show (1 : Fin 4) ≠ 0 by decide),
      Function.update_noteq (show (2 : Fin 4) ≠ 0 by decide),
      Function.update_noteq (show (2 : Fin 4) ≠ 1 by decide),
      Function.update_noteq (show (3 : Fin 4) ≠ 0 by decide),
      Function.update_noteq (show (3 : Fin 4) ≠ 1 by decide),
      Function.update_noteq (show (3 : Fin 4) ≠ 2 by decide)]
    rw [updBuf_read_ne _ _ _ _ (apIdx_next_ne 0 _ (hb 0).1 (hb 0).2),
        updBuf_read_ne _ _ _ _ (apIdx_next_ne 1 _ (hb 1).1 (hb 1).2),
        updBuf_read_ne _ _ _ _ (apIdx_next_ne 2 _ (hb 2).1 (hb 2).2),
        updBuf_read_ne _ _ _ _ (apIdx_next_ne 3 _ (hb 3).1 (hb 3).2)]

/-- Witness for `c8_reverb_topology_amended` at the planted state
`rvCodeC8`. -/
theorem c8_witness :
    (∀ j : Fin 4, 0 ≤ rvCodeC8.apIdx j ∧ rvCodeC8.apIdx j < allpassSizes j) ∧
    ((reverbProcessOne rvCodeC8 (F.finite 1) (F.finite 1)).2.1 =
       reverbAmendedOutL rvCodeC8 ∧
     (reverbProcessOne rvCodeC8 (F.finite 1) (F.finite 1)).2.2 =
       reverbAmendedOutR rvCodeC8) :=
  ⟨by decide,
   c8_reverb_topology_amended rvCodeC8 (F.finite 1) (F.finite 1) (by decide)⟩

/-- C8 counterexample: with `1.0` planted at slot 0 of every left comb
buffer and everything else at defaults, the code's left output for one
silent sample is `239/3840`, while the claim's per-channel two-stage
topology gives `239/960` (the choice of the two fixed per-channel sizes
is immaterial: a stage's output never reads its own size, so the first
two `ALLPASS_SIZES` entries are used here): the code's four shared
series stages attenuate the comb sum twice more than the claimed two
per-channel stages. -/
theorem c8_shared_allpass_counterexample :
    (reverbProcessOne rvCodeC8 (F.finite 0) (F.finite 0)).2.1 =
      F.finite (239/3840) ∧
    (reverbSpecProcessOne rvSpecC8 (fun j => if j = 0 then 556 else 441)
      (fun j => if j = 0 then 556 else 441) (F.finite 0)
      (F.finite 0)).2.1 = F.finite (239/960) ∧
    (239/3840 : ℚ) ≠ (239/960 : ℚ) :=
  ⟨by decide, by decide, by norm_num⟩

/-!
## EQ identity at 0 dB (claim C9)
-/

theorem div_zero_forty : F.div (F.finite 0) (F.finite 40) = F.finite 0 := by
  norm_num [F.div]

theorem processBiquad_id (c : BiquadCoeffs) (s : BiquadState) (ch : Bool)
    (q : ℚ) (hc : IdCoeffs c) (hs : MirrorSt s) :
    (processBiquad c s ch (F.finite q)).1 = F.finite q ∧
    MirrorSt (processBiquad c s ch (F.finite q)).2 := by
  obtain ⟨hb0, hb1, hb2, ⟨r1, ha1⟩, ⟨r2, ha2⟩⟩ := hc
  obtain ⟨p1, p2, q1, q2, hx1, hy1, hx2, hy2, hx1r, hy1r, hx2r, hy2r⟩ := hs
  have hval : F.sub (F.sub (F.add (F.add (F.mul c.b0 (F.finite q))
      (F.mul c.b1 s.x1)) (F.mul c.b2 s.x2)) (F.mul c.a1 s.y1))
      (F.mul c.a2 s.y2) = F.finite q := by
    rw [hb0, hb1, hb2, ha1, ha2, hx1, hx2, hy1, hy2]
    simp only [F.mul, F.add, F.sub, F.neg]
    congr 1
    ring
  have hvalr : F.sub (F.sub (F.add (F.add (F.mul c.b0 (F.finite q))
      (F.mul c.b1 s.x1r)) (F.mul c.b2 s.x2r)) (F.mul c.a1 s.y1r))
      (F.mul c.a2 s.y2r) = F.finite q := by
    rw [hb0, hb1, hb2, ha1, ha2, hx1r, hx2r, hy1r, hy2r]
    simp only [F.mul, F.add, F.sub, F.neg]
    congr 1
    ring
  cases ch with
  | false =>
    exact ⟨hval, q, p1, q1, q2, rfl, hval, hx1, hy1, hx1r, hy1r, hx2r, hy2r⟩
  | true =>
    exact ⟨hvalr, p1, p2, q, q1, hx1, hy1, hx2, hy2, rfl, hvalr, hx1r, hy1r⟩

theorem eqProcessOne_id (eq : ThreeBandEQ) (a b : ℚ) (h : EqIdInv eq) :
    (eqProcessOne eq (F.finite a) (F.finite b)).2 = (F.finite a, F.finite b) ∧
    EqIdInv (eqProcessOne eq (F.finite a) (F.finite b)).1 := by
  obtain ⟨hlc, hmc, hhc, hls, hms, hhs⟩ := h
  have h1 := processBiquad_id eq.lowShelf eq.lowState false a hlc hls
  have h2 := processBiquad_id eq.midPeak eq.midState false a hmc hms
  have h3 := processBiquad_id eq.highShelf eq.highState false a hhc hhs
  have h4 := processBiquad_id eq.lowShelf
    (processBiquad eq.lowShelf eq.lowState false (F.finite a)).2 true b hlc h1.2
  have h5 := processBiquad_id eq.midPeak
    (processBiquad eq.midPeak eq.midState false (F.finite a)).2 true b hmc h2.2
  have h6 := processBiquad_id eq.highShelf
    (processBiquad eq.highShelf eq.highState false (F.finite a)).2 true b hhc h3.2
  constructor
  · show ((processBiquad eq.highShelf eq.highState false
        (processBiquad eq.midPeak eq.midState false
          (processBiquad eq.lowShelf eq.lowState false (F.finite a)).1).1).1,
      (processBiquad eq.highShelf
        (processBiquad eq.highShelf eq.highState false
          (processBiquad eq.midPeak eq.midState false
            (processBiquad eq.lowShelf eq.lowState false (F.finite a)).1).1).2 true
        (processBiquad eq.midPeak
          (processBiquad eq.midPeak eq.midState false
            (processBiquad eq.lowShelf eq.lowState false (F.finite a)).1).2 true
          (processBiquad eq.lowShelf
            (processBiquad eq.lowShelf eq.lowState false (F.finite a)).2 true
            (F.finite b)).1).1).1) = (F.finite a, F.finite b)
    rw [h1.1, h2.1, h3.1, h4.1, h5.1, h6.1]
  · refine ⟨hlc, hmc, hhc, ?_, ?_, ?_⟩
    · show MirrorSt (processBiquad eq.lowShelf
        (processBiquad eq.lowShelf eq.lowState false (F.finite a)).2 true
        (F.finite b)).2
      exact h4.2
    · show MirrorSt (processBiquad eq.midPeak
        (processBiquad eq.midPeak eq.midState false
          (processBiquad eq.lowShelf eq.lowState false (F.finite a)).1).2 true
        (processBiquad eq.lowShelf
          (processBiquad eq.lowShelf eq.lowState false (F.finite a)).2 true
          (F.finite b)).1).2
      rw [h1.1, h4.1]
      exact h5.2
    · show MirrorSt (processBiquad eq.highShelf
        (processBiquad eq.highShelf eq.highState false
          (processBiquad eq.midPeak eq.midState false
            (processBiquad eq.lowShelf eq.lowState false (F.finite a)).1).1).2 true
        (processBiquad eq.midPeak
          (processBiquad eq.midPeak eq.midState false
            (processBiquad eq.lowShelf eq.lowState false (F.finite a)).1).2 true
          (processBiquad eq.lowShelf
            (processBiquad eq.lowShelf eq.lowState false (F.finite a)).2 true
            (F.finite b)).1).1).2
      rw [h1.1, h2.1, h4.1, h5.1]
      exact h6.2

theorem eqFold_id (ins : List (F × F)) :
    ∀ (eq : ThreeBandEQ) (acc : List (F × F)), EqIdInv eq →
    (∀ p ∈ ins, (∃ a : ℚ, p.1 = F.finite a) ∧ (∃ b : ℚ, p.2 = F.finite b)) →
    (ins.foldl (fun (acc2 : ThreeBandEQ × List (F × F)) p =>
        let o := eqProcessOne acc2.1 p.1 p.2
        (o.1, o.2 :: acc2.2)) (eq, acc)).2 = ins.reverse ++ acc := by
  induction ins with
  | nil => intro eq acc _ _; simp
  | cons p ps ih =>
    intro eq acc hinv hfin
    obtain ⟨x, y⟩ := p
    obtain ⟨⟨a, ha⟩, ⟨b, hb⟩⟩ := hfin (x, y) (List.mem_cons_self _ _)
    simp only at ha hb
    subst ha hb
    rw [List.foldl_cons]
    dsimp only
    have hone := eqProcessOne_id eq a b hinv
    rw [ih _ _ hone.2 (fun r hr => hfin r (List.mem_cons_of_mem _ hr))]
    rw [hone.1]
    simp

theorem eqProcessList_id (eq : ThreeBandEQ) (ins : List (F × F))
    (hinv : EqIdInv eq)
    (hfin : ∀ p ∈ ins, (∃ a : ℚ, p.1 = F.finite a) ∧
      (∃ b : ℚ, p.2 = F.finite b)) :
    (eqProcessList eq ins).2 = ins := by
  simp only [eqProcessList]
  rw [eqFold_id ins eq [] hinv hfin]
  simp

theorem calculateLowShelf_id (ops : DspOps) (sr : F) (s cc r : ℚ)
    (hpow : ops.pow (F.finite 10) (F.finite 0) = F.finite 1)
    (hsqrt1 : ops.sqrt (F.finite 1) = F.finite 1)
    (hsqrt2 : ops.sqrt (F.finite 2) = F.finite r)
    (hsin : ops.sin (biquadW0 sr (F.finite 250)) = F.finite s)
    (hcos : ops.cos (biquadW0 sr (F.finite 250)) = F.finite cc)
    (ha : s * r + 2 ≠ 0) :
    IdCoeffs (calculateLowShelf ops sr (F.finite 250) (F.finite 0)) := by
  have hA : ops.pow (F.finite 10) (F.div (F.finite 0) (F.finite 40))
      = F.finite 1 := by
    rw [div_zero_forty]; exact hpow
  simp only [calculateLowShelf, hA, hsin, hcos]
  norm_num [hsqrt1, hsqrt2, F.mul, F.div, F.add, F.sub, F.neg, IdCoeffs]
  have ha0 : (2 + 2 * (s / 2 * r) : ℚ) ≠ 0 := fun h =>
    ha (by linear_combination h)
  rw [if_neg ha0, if_neg ha0, if_neg ha0]
  exact ⟨by rw [div_self ha0], ⟨_, rfl⟩, ⟨_, rfl⟩⟩

theorem calculatePeaking_id (ops : DspOps) (sr : F) (s cc : ℚ)
    (hpow : ops.pow (F.finite 10) (F.finite 0) = F.finite 1)
    (hsin : ops.sin (biquadW0 sr (F.finite 1000)) = F.finite s)
    (hcos : ops.cos (biquadW0 sr (F.finite 1000)) = F.finite cc)
    (ha : s + 2 ≠ 0) :
    IdCoeffs (calculatePeaking ops sr (F.finite 1000) (F.finite 0)
      (F.finite 1)) := by
  have hA : ops.pow (F.finite 10) (F.div (F.finite 0) (F.finite 40))
      = F.finite 1 := by
    rw [div_zero_forty]; exact hpow
  simp only [calculatePeaking, hA, hsin, hcos]
  norm_num [F.mul, F.div, F.add, F.sub, F.neg, IdCoeffs]
  have ha0 : (1 + s / 2 : ℚ) ≠ 0 := fun h => ha (by linear_combination 2 * h)
  rw [if_neg ha0, if_neg ha0, if_neg ha0]
  exact ⟨by rw [div_self ha0], ⟨_, rfl⟩, ⟨_, rfl⟩⟩

theorem calculateHighShelf_id (ops : DspOps) (sr : F) (s cc r : ℚ)
    (hpow : ops.pow (F.finite 10) (F.finite 0) = F.finite 1)
    (hsqrt1 : ops.sqrt (F.finite 1) = F.finite 1)
    (hsqrt2 : ops.sqrt (F.finite 2) = F.finite r)
    (hsin : ops.sin (biquadW0 sr (F.finite 4000)) = F.finite s)
    (hcos : ops.cos (biquadW0 sr (F.finite 4000)) = F.finite cc)
    (ha : s * r + 2 ≠ 0) :
    IdCoeffs (calculateHighShelf ops sr (F.finite 4000) (F.finite 0)) := by
  have hA : ops.pow (F.finite 10) (F.div (F.finite 0) (F.finite 40))
      = F.finite 1 := by
    rw [div_zero_forty]; exact hpow
  simp only [calculateHighShelf, hA, hsin, hcos]
  norm_num [hsqrt1, hsqrt2, F.mul, F.div, F.add, F.sub, F.neg, IdCoeffs]
  have ha0 : (2 + 2 * (s / 2 * r) : ℚ) ≠ 0 := fun h =>
    ha (by linear_combination h)
  rw [if_neg ha0, if_neg ha0, if_neg ha0]
  exact ⟨by rw [div_self ha0], ⟨_, rfl⟩, ⟨_, rfl⟩⟩

/-- C9: with all three gains at their constructor default of 0 dB and
zero filter state, `ThreeBandEQ::process` maps every finite stereo input
sequence to itself — exactly, in the model's exact rational arithmetic
(the floating-point tolerance of the claim collapses to equality here).
The hypotheses pin the only library values the 0 dB coefficients touch:
`pow(10,0) = 1`, `sqrt 1 = 1`, finite `sqrt 2`, finite `sin`/`cos` at the
three band frequencies, and the three non-degenerate `a0` denominators. -/
theorem c9_eq_identity (ops : DspOps) (sr : F) (ins : List (F × F))
    (s250 c250 s1000 c1000 s4000 c4000 r2 : ℚ)
    (hpow : ops.pow (F.finite 10) (F.finite 0) = F.finite 1)
    (hsqrt1 : ops.sqrt (F.finite 1) = F.finite 1)
    (hsqrt2 : ops.sqrt (F.finite 2) = F.finite r2)
    (hsin250 : ops.sin (biquadW0 sr (F.finite 250)) = F.finite s250)
    (hcos250 : ops.cos (biquadW0 sr (F.finite 250)) = F.finite c250)
    (hsin1000 : ops.sin (biquadW0 sr (F.finite 1000)) = F.finite s1000)
    (hcos1000 : ops.cos (biquadW0 sr (F.finite 1000)) = F.finite c1000)
    (hsin4000 : ops.sin (biquadW0 sr (F.finite 4000)) = F.finite s4000)
    (hcos4000 : ops.cos (biquadW0 sr (F.finite 4000)) = F.finite c4000)
    (ha250 : s250 * r2 + 2 ≠ 0) (ha1000 : s1000 + 2 ≠ 0)
    (ha4000 : s4000 * r2 + 2 ≠ 0)
    (hfin : ∀ p ∈ ins, (∃ a : ℚ, p.1 = F.finite a) ∧
      (∃ b : ℚ, p.2 = F.finite b)) :
    (eqProcessList (eqInit ops sr) ins).2 = ins := by
  apply eqProcessList_id
  · refine ⟨?_, ?_, ?_, ?_, ?_, ?_⟩
    · exact calculateLowShelf_id ops sr s250 c250 r2 hpow hsqrt1 hsqrt2
        hsin250 hcos250 ha250
    · exact calculatePeaking_id ops sr s1000 c1000 hpow hsin1000 hcos1000
        ha1000
    · exact calculateHighShelf_id ops sr s4000 c4000 r2 hpow hsqrt1 hsqrt2
        hsin4000 hcos4000 ha4000
    · exact ⟨0, 0, 0, 0, rfl, rfl, rfl, rfl, rfl, rfl, rfl, rfl⟩
    · exact ⟨0, 0, 0, 0, rfl, rfl, rfl, rfl, rfl, rfl, rfl, rfl⟩
    · exact ⟨0, 0, 0, 0, rfl, rfl, rfl, rfl, rfl, rfl, rfl, rfl⟩
  · exact hfin

/-- Witness for `c9_eq_identity`: the concrete interpretation `idOps`
satisfies every hypothesis, and the EQ at 48 kHz defaults is then the
identity on a concrete finite input pair. -/
theorem c9_witness :
    idOps.pow (F.finite 10) (F.finite 0) = F.finite 1 ∧
    idOps.sqrt (F.finite 1) = F.finite 1 ∧
    idOps.sqrt (F.finite 2) = F.finite 2 ∧
    ((3 : ℚ)/5 * 2 + 2 ≠ 0) ∧ ((3 : ℚ)/5 + 2 ≠ 0) ∧
    (eqProcessList (eqInit idOps (F.finite 2))
      [(F.finite 1, F.finite 2)]).2 = [(F.finite 1, F.finite 2)] :=
  ⟨rfl, rfl, rfl, by norm_num, by norm_num,
   c9_eq_identity idOps (F.finite 2) [(F.finite 1, F.finite 2)]
     (3/5) (4/5) (3/5) (4/5) (3/5) (4/5) 2
     rfl rfl rfl rfl rfl rfl rfl rfl rfl
     (by norm_num) (by norm_num) (by norm_num)
     (by
       intro p hp
       rw [List.mem_singleton] at hp
       subst hp
       exact ⟨⟨1, rfl⟩, ⟨2, rfl⟩⟩)⟩
